import Mathlib

set_option linter.unusedVariables false

namespace PortfolioBE

/-! Shallow embedding of the portfolio backend's versioned key-value store
(`src/server/config/portfolio-data.js`), its domain data functions, the
in-memory cache layer and refresh manager (`src/unnamed/part_000`,
exported as `portfolio-cache.js`).

The durable `portfolio_data` table is modelled as a list of rows kept in
insertion order; `created_at` is a logical clock (row insertion instant),
matching `ORDER BY created_at ASC` reads.  SQL transactions commit on
success and leave the store unchanged when the callback throws, exactly
as the `transaction` wrapper in `src/server/config/database.js` does
(BEGIN / COMMIT on success / ROLLBACK on error). -/

/-- Row models one row of the `portfolio_data` table: key, type tag,
JSON value payload (the type parameter), version, active flag and the
creation instant (a logical clock). -/
structure Row (α : Type) where
  key : String
  type : String
  value : α
  version : Nat
  is_active : Bool
  created_at : Nat
deriving Repr, DecidableEq

/-- Store models the durable table: rows in insertion order plus the
logical clock used for `created_at` of the next inserted row. -/
structure Store (α : Type) where
  rows : List (Row α)
  clock : Nat
deriving Repr, DecidableEq

/-- Rows of the table that are active and carry the given key
(`WHERE key = $1 AND is_active = TRUE`). -/
def activeFor {α : Type} (key : String) (rows : List (Row α)) : List (Row α) :=
  rows.filter fun r => r.key == key && r.is_active

/-- Embeds `UPDATE portfolio_data SET is_active = FALSE WHERE key = $1 AND
is_active = TRUE`. -/
def deactivateKey {α : Type} (key : String) (rows : List (Row α)) : List (Row α) :=
  rows.map fun r => if r.key == key && r.is_active then { r with is_active := false } else r

/-- Embeds `SELECT COALESCE(MAX(version), 0) ... WHERE key = $1` (the
`+ 1` is applied by the callers). -/
def maxVersion {α : Type} (key : String) (rows : List (Row α)) : Nat :=
  rows.foldl (fun m r => if r.key == key then max m r.version else m) 0

/-- Embeds `getPortfolioItem` of portfolio-data.js: value of the active
row for the key, or null. -/
def getPortfolioItem {α : Type} (key : String) (s : Store α) : Option α :=
  (s.rows.find? fun r => r.key == key && r.is_active).map (·.value)

/-- Embeds `getPortfolioItemsByType`: values of active rows of the type,
ordered by `created_at` ascending (insertion order here). -/
def getPortfolioItemsByType {α : Type} (type : String) (s : Store α) : List α :=
  (s.rows.filter fun r => r.type == type && r.is_active).map (·.value)

/-- Embeds `getPortfolioItemsByTypeWithFilter` with a supplied filter. -/
def getPortfolioItemsByTypeWithFilter {α : Type} (type : String) (filterFn : α → Bool)
    (s : Store α) : List α :=
  (getPortfolioItemsByType type s).filter filterFn

/-- Embeds `setPortfolioItem`: deactivate the current active row for the
key, compute next version as max existing version plus one, insert the
new active row; returns the new store and the inserted row. -/
def setPortfolioItem {α : Type} (key type : String) (value : α) (s : Store α) :
    Store α × Row α :=
  let rows1 := deactivateKey key s.rows
  let nextVersion := maxVersion key rows1 + 1
  let newRow : Row α := ⟨key, type, value, nextVersion, true, s.clock⟩
  (⟨rows1 ++ [newRow], s.clock + 1⟩, newRow)

/-- Embeds `deletePortfolioItem` (soft delete): deactivate the active
rows for the key, returning the deactivated rows (`RETURNING *`). -/
def deletePortfolioItem {α : Type} (key : String) (s : Store α) :
    Store α × List (Row α) :=
  (⟨deactivateKey key s.rows, s.clock⟩,
   (activeFor key s.rows).map fun r => { r with is_active := false })

/-- Insertion step for sorting rows by version descending (`ORDER BY
version DESC`). -/
def insertByVersionDesc {α : Type} (r : Row α) : List (Row α) → List (Row α)
  | [] => [r]
  | x :: xs => if x.version < r.version then r :: x :: xs else x :: insertByVersionDesc r xs

/-- Sorts rows by version descending, stably. -/
def sortByVersionDesc {α : Type} (l : List (Row α)) : List (Row α) :=
  l.foldl (fun acc r => insertByVersionDesc r acc) []

/-- Embeds `getPortfolioItemHistory`: every row for the key, newest
version first. -/
def getPortfolioItemHistory {α : Type} (key : String) (s : Store α) : List (Row α) :=
  sortByVersionDesc (s.rows.filter fun r => r.key == key)

/-- Embeds `rollbackPortfolioItem`: inside a transaction, deactivate the
current active row for the key, then activate the row matching key and
version; throws (Except.error) when that version does not exist, which
aborts the transaction. -/
def rollbackPortfolioItem {α : Type} (key : String) (version : Nat) (s : Store α) :
    Except String (Row α × Store α) :=
  let rows1 := deactivateKey key s.rows
  let rows2 := rows1.map fun r =>
    if r.key == key && r.version == version then { r with is_active := true } else r
  match rows1.filter (fun r => r.key == key && r.version == version) with
  | [] => .error "version not found"
  | r :: _ => .ok ({ r with is_active := true }, ⟨rows2, s.clock⟩)

/-- Transactional run of `rollbackPortfolioItem`: on success the new
store is committed, on error the transaction rolls back and the store is
unchanged (semantics of `transaction` in database.js). -/
def rollbackPortfolioItemTx {α : Type} (key : String) (version : Nat) (s : Store α) :
    Store α × Option (Row α) :=
  match rollbackPortfolioItem key version s with
  | .ok (r, s') => (s', some r)
  | .error _ => (s, none)

/-! Helper lemmas about stores whose rows avoid a key. -/

theorem deactivateKey_of_not_key {α : Type} {key : String} {rows : List (Row α)}
    (h : ∀ r ∈ rows, r.key ≠ key) : deactivateKey key rows = rows := by
  induction rows with
  | nil => rfl
  | cons r rs ih =>
    have hr : r.key ≠ key := h r (by simp)
    have hrs : ∀ x ∈ rs, x.key ≠ key := fun x hx => h x (by simp [hx])
    simp [deactivateKey] at ih ⊢
    constructor
    · intro hk
      exact absurd hk hr
    · exact ih hrs

theorem maxVersion_foldl_of_not_key {α : Type} {key : String} {rows : List (Row α)}
    (h : ∀ r ∈ rows, r.key ≠ key) (m : Nat) :
    rows.foldl (fun m r => if r.key == key then max m r.version else m) m = m := by
  induction rows generalizing m with
  | nil => rfl
  | cons r rs ih =>
    have hr : (r.key == key) = false := by simp [h r (by simp)]
    have hrs : ∀ x ∈ rs, x.key ≠ key := fun x hx => h x (by simp [hx])
    rw [List.foldl_cons]
    simp only [hr, Bool.false_eq_true, if_false]
    exact ih hrs m

theorem maxVersion_of_not_key {α : Type} {key : String} {rows : List (Row α)}
    (h : ∀ r ∈ rows, r.key ≠ key) : maxVersion key rows = 0 :=
  maxVersion_foldl_of_not_key h 0

theorem find?_append_of_forall_false {β : Type} {p : β → Bool} {l1 l2 : List β}
    (h : ∀ x ∈ l1, p x = false) : (l1 ++ l2).find? p = l2.find? p := by
  induction l1 with
  | nil => rfl
  | cons x xs ih =>
    have hx : p x = false := h x (by simp)
    have hxs : ∀ y ∈ xs, p y = false := fun y hy => h y (by simp [hy])
    simp [List.find?, hx, ih hxs]

theorem filter_eq_nil_of_forall_false {β : Type} {p : β → Bool} {l : List β}
    (h : ∀ x ∈ l, p x = false) : l.filter p = [] := by
  induction l with
  | nil => rfl
  | cons x xs ih =>
    have hx : p x = false := h x (by simp)
    have hxs : ∀ y ∈ xs, p y = false := fun y hy => h y (by simp [hy])
    simp [List.filter_cons, hx, ih hxs]

theorem deactivateKey_append {α : Type} (key : String) (l1 l2 : List (Row α)) :
    deactivateKey key (l1 ++ l2) = deactivateKey key l1 ++ deactivateKey key l2 :=
  List.map_append _ l1 l2

/-- A write into a store with no rows for the key appends a version-1
active row. -/
theorem setOnce_rows {α : Type} (k t : String) (v1 : α) (s : Store α)
    (hk : ∀ r ∈ s.rows, r.key ≠ k) :
    (setPortfolioItem k t v1 s).1.rows = s.rows ++ [⟨k, t, v1, 1, true, s.clock⟩] := by
  show deactivateKey k s.rows ++
      [⟨k, t, v1, maxVersion k (deactivateKey k s.rows) + 1, true, s.clock⟩] = _
  rw [deactivateKey_of_not_key hk, maxVersion_of_not_key hk]

theorem deactivateKey_fresh {α : Type} (k t : String) (v1 : α) (c : Nat) {rows : List (Row α)}
    (hk : ∀ r ∈ rows, r.key ≠ k) :
    deactivateKey k (rows ++ [⟨k, t, v1, 1, true, c⟩]) =
      rows ++ [⟨k, t, v1, 1, false, c⟩] := by
  rw [deactivateKey_append, deactivateKey_of_not_key hk]
  simp [deactivateKey]

theorem maxVersion_fresh {α : Type} (k t : String) (v1 : α) (c : Nat) {rows : List (Row α)}
    (hk : ∀ r ∈ rows, r.key ≠ k) :
    maxVersion k (rows ++ [⟨k, t, v1, 1, false, c⟩]) = 1 := by
  unfold maxVersion
  rw [List.foldl_append, maxVersion_foldl_of_not_key hk]
  simp

/-- A store with no rows for key `k`, after two writes of `k`, has rows
`prior ++ [version-1 row (inactive), version-2 row (active)]`. -/
theorem setTwice_rows {α : Type} (k t : String) (v1 v2 : α) (s : Store α)
    (hk : ∀ r ∈ s.rows, r.key ≠ k) :
    (setPortfolioItem k t v2 (setPortfolioItem k t v1 s).1).1.rows =
      s.rows ++ [⟨k, t, v1, 1, false, s.clock⟩, ⟨k, t, v2, 2, true, s.clock + 1⟩] := by
  show deactivateKey k (setPortfolioItem k t v1 s).1.rows ++
      [⟨k, t, v2, maxVersion k (deactivateKey k (setPortfolioItem k t v1 s).1.rows) + 1,
        true, (setPortfolioItem k t v1 s).1.clock⟩] = _
  rw [setOnce_rows k t v1 s hk, deactivateKey_fresh k t v1 s.clock hk,
    maxVersion_fresh k t v1 s.clock hk]
  show s.rows ++ [⟨k, t, v1, 1, false, s.clock⟩] ++ [⟨k, t, v2, 2, true, s.clock + 1⟩] = _
  simp

/-- Claim C1: after two `setPortfolioItem` writes of key `k` (no prior
records for `k`), `getPortfolioItem k` returns the second value, exactly
one record for `k` is active, the history holds versions 2 then 1
(newest first, hence the set of versions is exactly 1 and 2), and the
versions assigned were 1 and 2 — max existing plus one each time, so
strictly increasing and gapless. -/
theorem claim_C1 {α : Type} (k t : String) (v1 v2 : α) (s : Store α)
    (hk : ∀ r ∈ s.rows, r.key ≠ k) :
    getPortfolioItem k (setPortfolioItem k t v2 (setPortfolioItem k t v1 s).1).1 = some v2 ∧
    (activeFor k (setPortfolioItem k t v2 (setPortfolioItem k t v1 s).1).1.rows).length = 1 ∧
    (getPortfolioItemHistory k
      (setPortfolioItem k t v2 (setPortfolioItem k t v1 s).1).1).map (·.version) = [2, 1] ∧
    (setPortfolioItem k t v1 s).2.version = 1 ∧
    (setPortfolioItem k t v2 (setPortfolioItem k t v1 s).1).2.version = 2 := by
  have hrows := setTwice_rows k t v1 v2 s hk
  have hfalse : ∀ r ∈ s.rows, (r.key == k && r.is_active) = false := by
    intro r hr
    simp [hk r hr]
  have hkeyfalse : ∀ r ∈ s.rows, (r.key == k) = false := by
    intro r hr
    simp [hk r hr]
  refine ⟨?_, ?_, ?_, ?_, ?_⟩
  · rw [getPortfolioItem, hrows, find?_append_of_forall_false hfalse]
    simp [List.find?]
  · rw [activeFor, hrows, List.filter_append, filter_eq_nil_of_forall_false hfalse]
    simp
  · rw [getPortfolioItemHistory, hrows, List.filter_append,
      filter_eq_nil_of_forall_false hkeyfalse]
    simp [sortByVersionDesc, insertByVersionDesc]
  · show maxVersion k (deactivateKey k s.rows) + 1 = 1
    rw [deactivateKey_of_not_key hk, maxVersion_of_not_key hk]
  · show maxVersion k (deactivateKey k (setPortfolioItem k t v1 s).1.rows) + 1 = 2
    rw [setOnce_rows k t v1 s hk, deactivateKey_fresh k t v1 s.clock hk,
      maxVersion_fresh k t v1 s.clock hk]

/-- Witness for C1 at a concrete input: empty store, key `profile`,
values 1 and 2. -/
theorem claim_C1_witness :
    (∀ r ∈ (Store.mk ([] : List (Row Nat)) 0).rows, r.key ≠ "profile") ∧
    getPortfolioItem "profile"
      (setPortfolioItem "profile" "profile" 2
        (setPortfolioItem "profile" "profile" 1 (Store.mk ([] : List (Row Nat)) 0)).1).1 = some 2 ∧
    (activeFor "profile"
      (setPortfolioItem "profile" "profile" 2
        (setPortfolioItem "profile" "profile" 1 (Store.mk ([] : List (Row Nat)) 0)).1).1.rows).length = 1 ∧
    (getPortfolioItemHistory "profile"
      (setPortfolioItem "profile" "profile" 2
        (setPortfolioItem "profile" "profile" 1
          (Store.mk ([] : List (Row Nat)) 0)).1).1).map (·.version) = [2, 1] :=
  ⟨by simp, by
    have h := claim_C1 "profile" "profile" 1 2 (Store.mk ([] : List (Row Nat)) 0) (by simp)
    exact ⟨h.1, h.2.1, h.2.2.1⟩⟩

theorem map_self_of_forall {β : Type} {f : β → β} {l : List β}
    (h : ∀ x ∈ l, f x = x) : l.map f = l := by
  induction l with
  | nil => rfl
  | cons x xs ih =>
    rw [List.map_cons, h x (by simp), ih fun y hy => h y (by simp [hy])]

/-- Claim C6: on a store with no prior records for `k`, after writing
versions 1 and 2, rolling back to version 1 makes `getPortfolioItem k`
return the first value again; rolling back to a version that does not
exist fails with the not-found error, and the transaction leaves the
store unchanged, so the version-2 record stays active (no partial
effect). -/
theorem claim_C6 {α : Type} (k t : String) (v1 v2 : α) (s : Store α)
    (hk : ∀ r ∈ s.rows, r.key ≠ k) :
    getPortfolioItem k
      (rollbackPortfolioItemTx k 1
        (setPortfolioItem k t v2 (setPortfolioItem k t v1 s).1).1).1 = some v1 ∧
    (∀ v, v ≠ 1 → v ≠ 2 →
      rollbackPortfolioItem k v
          (setPortfolioItem k t v2 (setPortfolioItem k t v1 s).1).1 =
        .error "version not found" ∧
      (rollbackPortfolioItemTx k v
          (setPortfolioItem k t v2 (setPortfolioItem k t v1 s).1).1).1 =
        (setPortfolioItem k t v2 (setPortfolioItem k t v1 s).1).1 ∧
      getPortfolioItem k
        (rollbackPortfolioItemTx k v
          (setPortfolioItem k t v2 (setPortfolioItem k t v1 s).1).1).1 = some v2) := by
  have hrows := setTwice_rows k t v1 v2 s hk
  have hfalse : ∀ r ∈ s.rows, (r.key == k && r.is_active) = false := by
    intro r hr
    simp [hk r hr]
  have hdeact : deactivateKey k
      (setPortfolioItem k t v2 (setPortfolioItem k t v1 s).1).1.rows =
      s.rows ++ [⟨k, t, v1, 1, false, s.clock⟩, ⟨k, t, v2, 2, false, s.clock + 1⟩] := by
    rw [hrows]
    show deactivateKey k (s.rows ++ [_, _]) = _
    rw [deactivateKey_append, deactivateKey_of_not_key hk]
    simp [deactivateKey]
  have hfiltv : ∀ v : Nat, ∀ r ∈ s.rows, (r.key == k && r.version == v) = false := by
    intro v r hr
    simp [hk r hr]
  constructor
  · have hfilt : List.filter (fun r : Row α => r.key == k && r.version == 1)
        (s.rows ++ [Row.mk k t v1 1 false s.clock, Row.mk k t v2 2 false (s.clock + 1)]) =
        [Row.mk k t v1 1 false s.clock] := by
      rw [List.filter_append, filter_eq_nil_of_forall_false (hfiltv 1)]
      simp
    have hact : List.map
        (fun r : Row α =>
          if r.key == k && r.version == 1 then { r with is_active := true } else r)
        (s.rows ++ [Row.mk k t v1 1 false s.clock, Row.mk k t v2 2 false (s.clock + 1)]) =
        s.rows ++ [Row.mk k t v1 1 true s.clock, Row.mk k t v2 2 false (s.clock + 1)] := by
      rw [List.map_append, map_self_of_forall (fun r hr => by simp [hk r hr])]
      simp
    simp only [rollbackPortfolioItemTx, rollbackPortfolioItem, hdeact, hfilt, hact]
    rw [getPortfolioItem]
    show ((s.rows ++ _).find? _).map _ = _
    rw [find?_append_of_forall_false hfalse]
    simp [List.find?]
  · intro v hv1 hv2
    have herr : rollbackPortfolioItem k v
        (setPortfolioItem k t v2 (setPortfolioItem k t v1 s).1).1 =
        .error "version not found" := by
      simp only [rollbackPortfolioItem, hdeact]
      rw [List.filter_append, filter_eq_nil_of_forall_false (hfiltv v)]
      simp only [List.filter_cons, List.filter_nil]
      have e1 : ((1 : Nat) == v) = false := by
        simp only [beq_eq_false_iff_ne, ne_eq]
        omega
      have e2 : ((2 : Nat) == v) = false := by
        simp only [beq_eq_false_iff_ne, ne_eq]
        omega
      simp [e1, e2]
    have hTx : (rollbackPortfolioItemTx k v
        (setPortfolioItem k t v2 (setPortfolioItem k t v1 s).1).1).1 =
        (setPortfolioItem k t v2 (setPortfolioItem k t v1 s).1).1 := by
      rw [rollbackPortfolioItemTx, herr]
    refine ⟨herr, hTx, ?_⟩
    rw [hTx, getPortfolioItem, hrows, find?_append_of_forall_false hfalse]
    simp [List.find?]

/-- Witness for C6 at a concrete input: empty store, key `profile`,
values 1 and 2, missing version 3. -/
theorem claim_C6_witness :
    (∀ r ∈ (Store.mk ([] : List (Row Nat)) 0).rows, r.key ≠ "profile") ∧
    getPortfolioItem "profile"
      (rollbackPortfolioItemTx "profile" 1
        (setPortfolioItem "profile" "p" 2
          (setPortfolioItem "profile" "p" 1 (Store.mk ([] : List (Row Nat)) 0)).1).1).1 = some 1 ∧
    rollbackPortfolioItem "profile" 3
        (setPortfolioItem "profile" "p" 2
          (setPortfolioItem "profile" "p" 1 (Store.mk ([] : List (Row Nat)) 0)).1).1 =
      .error "version not found" :=
  ⟨by simp, by
    have h := claim_C6 "profile" "p" 1 2 (Store.mk ([] : List (Row Nat)) 0) (by simp)
    exact ⟨h.1, (h.2 3 (by decide) (by decide)).1⟩⟩

/-! JavaScript-semantics helpers shared by the embeddings below. -/

/-- JNum models a JavaScript value that is expected to be a number but
may be null or undefined (so strict inequality and null checks can be
embedded faithfully). Floating point is not needed: all numbers the
code compares here are integers. -/
inductive JNum where
  | undef
  | jnull
  | num (n : Int)
deriving Repr, DecidableEq

/-- Truthiness of a possibly-missing string (empty string is falsy). -/
def jsTruthyStr : Option String → Bool
  | some s => s != ""
  | none => false

/-- Embeds `a || b` for a possibly-missing string `a`. -/
def jsOrStr (a : Option String) (b : String) : String :=
  if jsTruthyStr a then a.getD "" else b

/-- Embeds `a || b` for a possibly-missing number `a` (0 is falsy). -/
def jsOrNum (a : Option Int) (b : Int) : Int :=
  match a with
  | some v => if v = 0 then b else v
  | none => b

/-- Truthiness of a possibly-missing boolean. -/
def jsTruthyBool : Option Bool → Bool
  | some b => b
  | none => false

/-- Subtraction of possibly-missing numbers: any missing operand yields
NaN, modeled as none. -/
def jsSubNum : Option Int → Option Int → Option Int
  | some x, some y => some (x - y)
  | _, _ => none

/-- Subtraction on JNum (used for `b.proficiency - a.proficiency`):
null or undefined operands give NaN (none). JavaScript coerces null to
0 in subtraction, but the code only reaches this subtraction when both
operands are non-null; undefined gives NaN. Null operands cannot reach
here, so mapping them to none as well is unobservable. -/
def jnumSub : JNum → JNum → Option Int
  | .num a, .num b => some (a - b)
  | _, _ => none

/-- String comparison as localeCompare: negative, zero or positive. -/
def localeCompare (a b : String) : Int :=
  if a < b then -1 else if b < a then 1 else 0

/-- A comparator result is "less" exactly when it is a negative number;
NaN (none) is not less — this is how Array.prototype.sort coerces the
comparator result (NaN compares neither less nor greater, so the pair
is treated as equal). -/
def jsLtCmp : Option Int → Bool
  | some n => decide (n < 0)
  | none => false

/-- Stable insertion of an element into a sorted prefix: the element is
placed before the first list element it compares strictly less than. -/
def insertCmp {β : Type} (cmp : β → β → Option Int) (x : β) : List β → List β
  | [] => [x]
  | y :: ys => if jsLtCmp (cmp x y) then x :: y :: ys else y :: insertCmp cmp x ys

/-- Models Array.prototype.sort with a user comparator as a stable
comparison sort (ES2019 requires sort stability; for the concrete
inputs proved below this also agrees with the V8 binary-insertion
TimSort that node actually runs). -/
def jsSortWith {β : Type} (cmp : β → β → Option Int) (l : List β) : List β :=
  l.foldl (fun acc x => insertCmp cmp x acc) []

/-- Property key coercion: JavaScript object keys are strings, and an
undefined id becomes the key "undefined". -/
def jsPropKey : Option String → String
  | some s => s
  | none => "undefined"

/-- Group step: push a value under a key, appending to the existing
group if one exists (`acc[k].push(x)`), else starting a new group. -/
def pushGroup {γ : Type} (acc : List (String × List γ)) (k : String) (x : γ) :
    List (String × List γ) :=
  if acc.any (fun p => p.1 == k) then
    acc.map fun p => if p.1 == k then (p.1, p.2 ++ [x]) else p
  else acc ++ [(k, [x])]

/-- Embeds the reduce/push grouping pattern (`list.reduce((acc, x) =>
{ acc[keyOf x].push(valOf x) })`) used to group achievements,
technologies and images by parent id, and items by type. -/
def groupByKeyVal {β γ : Type} (keyOf : β → String) (valOf : β → γ) (l : List β) :
    List (String × List γ) :=
  l.foldl (fun acc x => pushGroup acc (keyOf x) (valOf x)) []

/-- Embeds `acc[k] || []`. -/
def lookupGroup {γ : Type} (acc : List (String × List γ)) (k : String) : List γ :=
  match acc.find? (fun p => p.1 == k) with
  | some p => p.2
  | none => []

/-! Domain document model. Doc models the JSON `value` payloads this
code reads and writes; every field the embedded functions touch is
present, as a possibly-missing value (none models an absent property;
for string-valued fields an explicit null is conflated with absent,
which the embedded code never distinguishes). -/

/-- ImageInput models one entry of a project's `images` array. -/
structure ImageInput where
  image_url : String := ""
  alt_text : String := ""
  caption : String := ""
  sort_order : Int := 0
deriving Repr, DecidableEq

/-- Doc models a JSON document stored in the `value` column or passed
as a request payload. -/
structure Doc where
  id : Option String := none
  experience_id : Option String := none
  project_id : Option String := none
  technology : Option String := none
  slug : Option String := none
  status : Option String := none
  description : Option String := none
  icon_name : Option String := none
  metrics : Option String := none
  sort_order : Option Int := none
  is_featured : Option Bool := none
  name : Option String := none
  category : Option String := none
  company : Option String := none
  position : Option String := none
  title : Option String := none
  image_url : Option String := none
  proficiency : JNum := .undef
  created_at : Option String := none
  updated_at : Option String := none
  technologies : Option (List String) := none
  images : Option (List ImageInput) := none
  dbType : Option String := none
deriving Repr, DecidableEq

/-- Object spread `{ ...base, ...patch }`: fields present in the patch
override the base. -/
def mergeDoc (base patch : Doc) : Doc where
  id := patch.id <|> base.id
  experience_id := patch.experience_id <|> base.experience_id
  project_id := patch.project_id <|> base.project_id
  technology := patch.technology <|> base.technology
  slug := patch.slug <|> base.slug
  status := patch.status <|> base.status
  description := patch.description <|> base.description
  icon_name := patch.icon_name <|> base.icon_name
  metrics := patch.metrics <|> base.metrics
  sort_order := patch.sort_order <|> base.sort_order
  is_featured := patch.is_featured <|> base.is_featured
  name := patch.name <|> base.name
  category := patch.category <|> base.category
  company := patch.company <|> base.company
  position := patch.position <|> base.position
  title := patch.title <|> base.title
  image_url := patch.image_url <|> base.image_url
  proficiency := match patch.proficiency with | .undef => base.proficiency | p => p
  created_at := patch.created_at <|> base.created_at
  updated_at := patch.updated_at <|> base.updated_at
  technologies := patch.technologies <|> base.technologies
  images := patch.images <|> base.images
  dbType := patch.dbType <|> base.dbType

/-- Comparator `(a, b) => a.sort_order - b.sort_order` on documents. -/
def cmpDocSortOrder (a b : Doc) : Option Int :=
  jsSubNum a.sort_order b.sort_order

/-! Domain data functions of portfolio-data.js. -/

/-- Embeds `getAllSkills`. -/
def getAllSkills (s : Store Doc) : List Doc :=
  getPortfolioItemsByType "skill" s

/-- Embeds `getAchievementsForExperience` (with the string id callers
pass wrapped as a present value). -/
def getAchievementsForExperience (experienceId : Option String) (s : Store Doc) : List Doc :=
  getPortfolioItemsByTypeWithFilter "achievement"
    (fun achievement => achievement.experience_id == experienceId) s

/-- ExperienceView models `{ ...experience, achievements: [...] }`. -/
structure ExperienceView where
  exp : Doc
  achievements : List Doc
deriving Repr, DecidableEq

/-- Embeds `getAllExperiences`: two bulk reads, group achievements by
experience_id, attach sorted by sort_order, sort experiences by
sort_order. -/
def getAllExperiences (s : Store Doc) : List ExperienceView :=
  let experiences := getPortfolioItemsByType "experience" s
  let achievements := getPortfolioItemsByType "achievement" s
  let achievementsByExperience :=
    groupByKeyVal (fun a => jsPropKey a.experience_id) (fun a => a) achievements
  let withAch := experiences.map fun experience =>
    ExperienceView.mk experience
      (jsSortWith cmpDocSortOrder
        (lookupGroup achievementsByExperience (jsPropKey experience.id)))
  jsSortWith (fun a b => cmpDocSortOrder a.exp b.exp) withAch

/-- ProjectView models `{ ...project, technologies: [...], images:
[...] }`; technologies are the raw `tech.technology` field values. -/
structure ProjectView where
  project : Doc
  technologies : List (Option String)
  images : List Doc
deriving Repr, DecidableEq

/-- Embeds `getAllProjects`: three bulk reads, group technologies and
images by project_id, attach (images sorted by sort_order), sort
projects by sort_order. -/
def getAllProjects (s : Store Doc) : List ProjectView :=
  let projects := getPortfolioItemsByType "project" s
  let technologies := getPortfolioItemsByType "project_tech" s
  let images := getPortfolioItemsByType "project_image" s
  let technologiesByProject :=
    groupByKeyVal (fun t => jsPropKey t.project_id) (fun t => t.technology) technologies
  let imagesByProject :=
    groupByKeyVal (fun i => jsPropKey i.project_id) (fun i => i) images
  let withDetails := projects.map fun project =>
    ProjectView.mk project
      (lookupGroup technologiesByProject (jsPropKey project.id))
      (jsSortWith cmpDocSortOrder (lookupGroup imagesByProject (jsPropKey project.id)))
  jsSortWith (fun a b => cmpDocSortOrder a.project b.project) withDetails

/-- Embeds `getTechnologiesForProject`. -/
def getTechnologiesForProject (projectId : Option String) (s : Store Doc) : List Doc :=
  getPortfolioItemsByTypeWithFilter "project_tech"
    (fun tech => tech.project_id == projectId) s

/-- Embeds `getImagesForProject`. -/
def getImagesForProject (projectId : Option String) (s : Store Doc) : List Doc :=
  getPortfolioItemsByTypeWithFilter "project_image"
    (fun image => image.project_id == projectId) s

/-- Embeds `getProjectBySlug`: first active project whose slug matches,
with technologies and sorted images attached. -/
def getProjectBySlug (slug : String) (s : Store Doc) : Option ProjectView :=
  match getPortfolioItemsByTypeWithFilter "project" (fun project => project.slug == some slug) s with
  | [] => none
  | project :: _ =>
    some (ProjectView.mk project
      ((getTechnologiesForProject project.id s).map (fun tech => tech.technology))
      (jsSortWith cmpDocSortOrder (getImagesForProject project.id s)))

/-- Embeds `createProject`: insert the project row at version 1 (the
whole payload, timestamps added, becomes the value), then insert one
`project_tech` row per technology when a non-empty list is supplied;
returns the original payload. Images are not written as rows by this
function: the `images` array merely rides along inside the project
document. -/
def createProject (projectData : Doc) (now : String) (s : Store Doc) : Store Doc × Doc :=
  let projectKey := "project:" ++ jsPropKey projectData.id
  let s1 : Store Doc :=
    ⟨s.rows ++ [Row.mk projectKey "project"
      { projectData with created_at := some now, updated_at := some now } 1 true s.clock],
     s.clock + 1⟩
  let s2 : Store Doc :=
    match projectData.technologies with
    | some techs =>
      if techs.length > 0 then
        techs.foldl (fun st technology =>
          (⟨st.rows ++ [Row.mk
              ("project_tech:" ++ jsPropKey projectData.id ++ ":" ++ technology) "project_tech"
              { project_id := projectData.id, technology := some technology,
                created_at := some now } 1 true st.clock],
            st.clock + 1⟩ : Store Doc)) s1
      else s1
    | none => s1
  (s2, projectData)

/-- Embeds `UPDATE ... WHERE type = 'project_tech' AND
value->>'project_id' = $1 AND is_active = TRUE`. -/
def deactivateTechRows (id : String) (rows : List (Row Doc)) : List (Row Doc) :=
  rows.map fun r =>
    if r.type == "project_tech" && r.value.project_id == some id && r.is_active
    then { r with is_active := false } else r

/-- Embeds the technology-insertion loop of `updateProject`: one new
`project_tech` row (version 1, active) per technology. -/
def insertTechRows (id now : String) (techs : List String) (st : Store Doc) : Store Doc :=
  techs.foldl (fun st technology =>
    (⟨st.rows ++ [Row.mk ("project_tech:" ++ id ++ ":" ++ technology) "project_tech"
        { project_id := some id, technology := some technology,
          created_at := some now } 1 true st.clock],
      st.clock + 1⟩ : Store Doc)) st

/-- Embeds `updateProject`: version-bump the project row with the merged
value; when `technologies` is provided (not undefined), deactivate all
active `project_tech` rows of this project and insert the new set at
version 1 each. The `images` field of the patch is only merged into the
project document; `project_image` rows are not touched. -/
def updateProject (id : String) (patch : Doc) (now : String) (s : Store Doc) :
    Except String (Store Doc × Doc) :=
  let projectKey := "project:" ++ id
  match getPortfolioItem projectKey s with
  | none => .error "Project not found"
  | some currentProject =>
    let rows1 := deactivateKey projectKey s.rows
    let nextVersion := maxVersion projectKey rows1 + 1
    let newDoc := { mergeDoc currentProject patch with
      id := some id, created_at := currentProject.created_at, updated_at := some now }
    let s1 : Store Doc :=
      ⟨rows1 ++ [Row.mk projectKey "project" newDoc nextVersion true s.clock], s.clock + 1⟩
    let s2 : Store Doc :=
      match patch.technologies with
      | none => s1
      | some techs =>
        insertTechRows id now techs (⟨deactivateTechRows id s1.rows, s1.clock⟩ : Store Doc)
    .ok (s2, { mergeDoc currentProject patch with id := some id })

/-- AchInput models one entry of the achievements array supplied to
`updateExperienceWithAchievements`. -/
structure AchInput where
  id : Option String := none
  description : Option String := none
  icon_name : Option String := none
  metrics : Option String := none
  sort_order : Option Int := none
deriving Repr, DecidableEq

/-- Embeds `UPDATE ... WHERE type = 'achievement' AND
value->>'experience_id' = $1 AND is_active = TRUE`. -/
def deactivateAchievementsFor (id : String) (rows : List (Row Doc)) : List (Row Doc) :=
  rows.map fun r =>
    if r.type == "achievement" && r.value.experience_id == some id && r.is_active
    then { r with is_active := false } else r

/-- Embeds the achievement-insertion loop: for the i-th entry, the row
key uses `entry.id || uuid()` and the document id uses a second
`entry.id || uuid()` call (two distinct fresh ids when the entry has no
id — the uuid supply is threaded as a function of a call counter);
`sort_order` falls back to the loop index when falsy; every row is
inserted at version 1, active. -/
def insertAchievements (expId now : String) (uuid : Nat → String) :
    List AchInput → Nat → Nat → Store Doc → Store Doc × List Doc
  | [], _, _, s => (s, [])
  | a :: rest, i, n, s =>
    let keyId := jsOrStr a.id (uuid n)
    let docId := jsOrStr a.id (uuid (n + 1))
    let n' := if jsTruthyStr a.id then n else n + 2
    let achievementData : Doc :=
      { id := some docId, experience_id := some expId,
        description := a.description, icon_name := a.icon_name, metrics := a.metrics,
        sort_order := some (jsOrNum a.sort_order i), created_at := some now }
    let s1 : Store Doc :=
      ⟨s.rows ++ [Row.mk ("achievement:" ++ keyId) "achievement" achievementData 1 true s.clock],
       s.clock + 1⟩
    let (s2, ds) := insertAchievements expId now uuid rest (i + 1) n' s1
    (s2, achievementData :: ds)

/-- Embeds `updateExperienceWithAchievements`: inside one transaction,
version-bump the experience record with the merged value, deactivate
every active achievement row whose experience_id matches, then insert a
fresh achievement row (version 1) per supplied entry; not-found aborts
the transaction before any write. Returns the new store with the merged
experience value and created achievements. -/
def updateExperienceWithAchievements (id : String) (patch : Doc) (achievements : List AchInput)
    (now : String) (uuid : Nat → String) (s : Store Doc) :
    Except String (Store Doc × (Doc × List Doc)) :=
  let experienceKey := "experience:" ++ id
  match getPortfolioItem experienceKey s with
  | none => .error "Experience not found"
  | some currentExperience =>
    let rows1 := deactivateKey experienceKey s.rows
    let nextVersion := maxVersion experienceKey rows1 + 1
    let newExp := { mergeDoc currentExperience patch with
      id := some id, created_at := currentExperience.created_at, updated_at := some now }
    let s1 : Store Doc :=
      ⟨rows1 ++ [Row.mk experienceKey "experience" newExp nextVersion true s.clock], s.clock + 1⟩
    let s2 : Store Doc := ⟨deactivateAchievementsFor id s1.rows, s1.clock⟩
    let res := insertAchievements id now uuid achievements 0 0 s2
    .ok (res.1, ({ mergeDoc currentExperience patch with id := some id }, res.2))

/-! Statistics functions of portfolio-data.js. -/

/-- TypeStat models one row of the `GROUP BY type` statistics query:
count of active rows of the type and MAX(created_at) over them. -/
structure TypeStat where
  type : String
  count : Nat
  last_updated : Nat
deriving Repr, DecidableEq

/-- Insertion step for ascending string sort (`ORDER BY type`). -/
def insertStrAsc (x : String) : List String → List String
  | [] => [x]
  | y :: ys => if x < y then x :: y :: ys else y :: insertStrAsc x ys

/-- Ascending stable string sort. -/
def sortStrAsc (l : List String) : List String :=
  l.foldl (fun acc x => insertStrAsc x acc) []

/-- Maximum of a list of naturals, 0 when empty. -/
def maxNat (l : List Nat) : Nat := l.foldl max 0

/-- Embeds `getPortfolioStatsByType`: per type of the active rows, the
count and the greatest creation instant, ordered by type. -/
def getPortfolioStatsByType {α : Type} (s : Store α) : List TypeStat :=
  let active := s.rows.filter (fun r => r.is_active)
  let types := sortStrAsc ((active.map (fun r => r.type)).dedup)
  types.map fun t =>
    let ofType := active.filter (fun r => r.type == t)
    TypeStat.mk t ofType.length (maxNat (ofType.map (fun r => r.created_at)))

/-- DashboardStats models the object `getDashboardStats` returns;
lastUpdated is none when there are no stats rows at all (JavaScript
would produce -Infinity from an empty Math.max spread). -/
structure DashboardStats where
  totalStats : List (String × Nat)
  featuredSkills : Nat
  publishedProjects : Nat
  totalAchievements : Nat
  lastUpdated : Option Nat
deriving Repr, DecidableEq

/-- Embeds `Math.max(...list)`: none models the empty case. -/
def jsMathMax (l : List Nat) : Option Nat :=
  match l with
  | [] => none
  | x :: xs => some (xs.foldl max x)

/-- Embeds `getDashboardStats`: statistics by type plus derived counts
(featured skills by truthy is_featured, published projects, total
attached achievements) and the greatest per-type last_updated. -/
def getDashboardStats (s : Store Doc) : DashboardStats :=
  let stats := getPortfolioStatsByType s
  let skillsWithFeatured := getAllSkills s
  let projectsWithStatus := getAllProjects s
  let experiences := getAllExperiences s
  let featuredSkillsCount :=
    (skillsWithFeatured.filter fun skill => jsTruthyBool skill.is_featured).length
  let publishedProjectsCount :=
    (projectsWithStatus.filter fun project => project.project.status == some "published").length
  let totalAchievements :=
    experiences.foldl (fun sum exp => sum + exp.achievements.length) 0
  DashboardStats.mk
    (stats.map fun row => (row.type, row.count))
    featuredSkillsCount
    publishedProjectsCount
    totalAchievements
    (jsMathMax (stats.map fun row => row.last_updated))

/-! Cache provider (portfolio-cache.js). The NodeCache instance is a
process-local map with no TTL and no eviction; entries are modeled as
an association list in first-insertion order (NodeCache key order). -/

/-- JSVal models an arbitrary JavaScript value a caller may store in
the cache, enough to decide truthiness (objects are abstracted to an
identifier and are always truthy; numbers are integers since NaN-valued
cache payloads do not occur). -/
inductive JSVal where
  | undef
  | jnull
  | jbool (b : Bool)
  | jnum (n : Int)
  | jstr (s : String)
  | jobj (oid : Nat)
deriving Repr, DecidableEq

/-- Truthiness of a JSVal. -/
def jsTruthy : JSVal → Bool
  | .undef => false
  | .jnull => false
  | .jbool b => b
  | .jnum n => n != 0
  | .jstr s => s != ""
  | .jobj _ => true

/-- Raw map lookup (`cache.get(key)` before the or-null coercion):
none models NodeCache returning undefined for a missing key. -/
def cacheLookup {γ : Type} (entries : List (String × γ)) (key : String) : Option γ :=
  (entries.find? fun e => e.1 == key).map (fun e => e.2)

/-- Map update (`cache.set(key, v)`): overwrite in place when the key
exists, else append (preserving NodeCache first-insertion key order). -/
def cacheSet {γ : Type} (entries : List (String × γ)) (key : String) (v : γ) :
    List (String × γ) :=
  if entries.any (fun e => e.1 == key) then
    entries.map fun e => if e.1 == key then (e.1, v) else e
  else entries ++ [(key, v)]

/-- Embeds `CacheProvider.getItem`: `cache.get(key) || null`. A missing
key gives undefined, and the or-null coercion turns every falsy result
(undefined, null, false, 0, empty string) into null. -/
def getItem (entries : List (String × JSVal)) (key : String) : JSVal :=
  match cacheLookup entries key with
  | none => .jnull
  | some v => if jsTruthy v then v else .jnull

/-- Embeds `CacheProvider.setItem`. -/
def setItem (entries : List (String × JSVal)) (key : String) (v : JSVal) :
    List (String × JSVal) :=
  cacheSet entries key v

/-! Data accessor (PortfolioDataAccessor of portfolio-cache.js). -/

/-- Embeds `getTypeFromItem`: the database type tag when present,
otherwise structure-based detection over the document's fields. -/
def getTypeFromItem (item : Doc) : String :=
  if jsTruthyStr item.dbType then item.dbType.getD ""
  else if jsTruthyStr item.name && jsTruthyStr item.category then "skill"
  else if jsTruthyStr item.company && jsTruthyStr item.position then "experience"
  else if jsTruthyStr item.experience_id then "achievement"
  else if jsTruthyStr item.title && jsTruthyStr item.slug then "project"
  else if jsTruthyStr item.project_id && jsTruthyStr item.technology then "project_tech"
  else if jsTruthyStr item.project_id && jsTruthyStr item.image_url then "project_image"
  else "profile"

/-- Embeds the comparator of `processFeaturedSkills`: proficiency
descending with nulls last, then sort_order ascending, then name. A
missing sort_order makes the subtraction NaN (none). -/
def compareSkills (a b : Doc) : Option Int :=
  if b.proficiency ≠ a.proficiency then
    if a.proficiency = JNum.jnull then some 1
    else if b.proficiency = JNum.jnull then some (-1)
    else jnumSub b.proficiency a.proficiency
  else if a.sort_order ≠ b.sort_order then jsSubNum a.sort_order b.sort_order
  else some (localeCompare (a.name.getD "") (b.name.getD ""))

/-- Embeds `processFeaturedSkills`: keep skills with `is_featured ===
true`, then sort with the skills comparator. -/
def processFeaturedSkills (allSkills : List Doc) : List Doc :=
  jsSortWith compareSkills (allSkills.filter fun skill => skill.is_featured == some true)

/-- Embeds `processExperiencesWithAchievements` (same grouping as
`getAllExperiences`, over already-fetched lists). -/
def processExperiencesWithAchievements (experiences achievements : List Doc) :
    List ExperienceView :=
  let achievementsByExperience :=
    groupByKeyVal (fun a => jsPropKey a.experience_id) (fun a => a) achievements
  let withAch := experiences.map fun experience =>
    ExperienceView.mk experience
      (jsSortWith cmpDocSortOrder
        (lookupGroup achievementsByExperience (jsPropKey experience.id)))
  jsSortWith (fun a b => cmpDocSortOrder a.exp b.exp) withAch

/-- Embeds `processProjectsWithTech`: group technologies and images by
project_id, keep only published projects, attach, sort by
sort_order. -/
def processProjectsWithTech (projects technologies images : List Doc) : List ProjectView :=
  let technologiesByProject :=
    groupByKeyVal (fun t => jsPropKey t.project_id) (fun t => t.technology) technologies
  let imagesByProject :=
    groupByKeyVal (fun i => jsPropKey i.project_id) (fun i => i) images
  let withDetails := (projects.filter fun project => project.status == some "published").map
    fun project =>
      ProjectView.mk project
        (lookupGroup technologiesByProject (jsPropKey project.id))
        (jsSortWith cmpDocSortOrder (lookupGroup imagesByProject (jsPropKey project.id)))
  jsSortWith (fun a b => cmpDocSortOrder a.project b.project) withDetails

/-- PortfolioShape models the response object of the accessor. -/
structure PortfolioShape where
  profile : Option Doc
  skills : List Doc
  experiences : List ExperienceView
  projects : List ProjectView
deriving Repr, DecidableEq

/-- Embeds `processPortfolioItems`: group the item values by inferred
type and assemble profile, featured skills, experiences and published
projects. -/
def processPortfolioItems (items : List (String × Doc)) : PortfolioShape :=
  let dataByType := groupByKeyVal getTypeFromItem (fun d => d) (items.map (fun e => e.2))
  PortfolioShape.mk
    ((lookupGroup dataByType "profile").head?)
    (processFeaturedSkills (lookupGroup dataByType "skill"))
    (processExperiencesWithAchievements
      (lookupGroup dataByType "experience") (lookupGroup dataByType "achievement"))
    (processProjectsWithTech (lookupGroup dataByType "project")
      (lookupGroup dataByType "project_tech") (lookupGroup dataByType "project_image"))

/-- Embeds `fetchAndProcessFromDB`: the database read either yields the
full item set (key to value-with-type-tag) or fails; on success the
items are shaped. -/
def fetchAndProcessFromDB (dbRes : Except Unit (List (String × Doc))) :
    Except Unit PortfolioShape :=
  dbRes.map processPortfolioItems

/-- Embeds `PortfolioDataAccessor.getPortfolioData`. The cache read and
the database read are supplied as environments (an Except models the
possibility of an unexpected failure, caught by the surrounding
try/catch which falls back to the database path). When caching is
disabled the database is always used; otherwise the cache entries under
the portfolio namespace are used when at least one exists, else the
database. -/
def getPortfolioData (enabled : Bool) (cacheRes : Except Unit (List (String × Doc)))
    (dbRes : Except Unit (List (String × Doc))) : Except Unit PortfolioShape :=
  if !enabled then fetchAndProcessFromDB dbRes
  else
    match cacheRes with
    | .error _ => fetchAndProcessFromDB dbRes
    | .ok entries =>
      let cachedItems := entries.filter fun e => e.1.startsWith "portfolio_data:"
      if cachedItems.length > 0 then .ok (processPortfolioItems cachedItems)
      else fetchAndProcessFromDB dbRes

/-! Refresh manager (CacheRefreshManager of portfolio-cache.js). -/

/-- MgrState models the manager's mutable state: the re-entrancy flag
and the cache contents. -/
structure MgrState (β : Type) where
  isRefreshing : Bool
  cache : List (String × β)
deriving Repr, DecidableEq

/-- REvent records the observable steps a refresh performs, in order:
skipping a re-entrant call, aborting on an unhealthy store, a fetch
attempt failing or succeeding, clearing the cache, writing a cache key,
and sleeping for a backoff delay. -/
inductive REvent where
  | skip
  | healthFail
  | fetchFail (attempt : Nat)
  | fetchOk (attempt : Nat)
  | cleared
  | setKey (cacheKey : String)
  | slept (ms : Nat)
deriving Repr, DecidableEq

/-- Cache contents after `clear()` followed by one `setItem` per
fetched entry under the portfolio namespace. -/
def populateCache {β : Type} (freshItems : List (String × β)) : List (String × β) :=
  freshItems.foldl (fun c kv => cacheSet c ("portfolio_data:" ++ kv.1) kv.2) []

/-- Embeds the retry loop of `refreshCacheWithRetry` over the remaining
attempt numbers: a successful fetch clears and repopulates the cache
and returns; a failed final attempt keeps the cache; a failed non-final
attempt sleeps 1000 * 2^(attempt-1) ms and retries. -/
def refreshGo {β : Type} (fetch : Nat → Option (List (String × β)))
    (cache : List (String × β)) : List Nat → List (String × β) × List REvent
  | [] => (cache, [])
  | attempt :: rest =>
    match fetch attempt with
    | some freshItems =>
      (populateCache freshItems,
       [REvent.fetchOk attempt, REvent.cleared] ++
         freshItems.map (fun kv => REvent.setKey ("portfolio_data:" ++ kv.1)))
    | none =>
      if rest.isEmpty then (cache, [REvent.fetchFail attempt])
      else
        let r := refreshGo fetch cache rest
        (r.1, REvent.fetchFail attempt :: REvent.slept (1000 * 2 ^ (attempt - 1)) :: r.2)

/-- Embeds `refreshCacheWithRetry`: a re-entrant call is a no-op; the
body sets the flag, aborts (keeping the cache) when the health probe
fails, else runs up to three fetch attempts, and the finally block
resets the flag on every completed body path. The health probe result
and the per-attempt fetch outcomes are supplied as an environment. -/
def refreshCacheWithRetry {β : Type} (healthy : Bool)
    (fetch : Nat → Option (List (String × β))) (st : MgrState β) :
    MgrState β × List REvent :=
  if st.isRefreshing then (st, [REvent.skip])
  else if !healthy then (MgrState.mk false st.cache, [REvent.healthFail])
  else
    let r := refreshGo fetch st.cache [1, 2, 3]
    (MgrState.mk false r.1, r.2)

/-- Holds of the events recording a fetch attempt. -/
def isFetchEvent : REvent → Bool
  | .fetchOk _ => true
  | .fetchFail _ => true
  | _ => false

/-- Number of fetch attempts recorded in a trace. -/
def countFetches (tr : List REvent) : Nat :=
  (tr.filter isFetchEvent).length

/-- Holds when every cache-clear event in the trace immediately follows
a successful fetch (fetch-then-swap ordering). -/
def clearedOnlyAfterFetchOk : List REvent → Bool
  | [] => true
  | REvent.fetchOk _ :: REvent.cleared :: rest => clearedOnlyAfterFetchOk rest
  | REvent.cleared :: _ => false
  | _ :: rest => clearedOnlyAfterFetchOk rest

/-! Theorems for the cache and shaping claims. -/

theorem mem_insertCmp {β : Type} {cmp : β → β → Option Int} {x y : β} {l : List β} :
    x ∈ insertCmp cmp y l ↔ x = y ∨ x ∈ l := by
  induction l with
  | nil => simp [insertCmp]
  | cons z zs ih =>
    by_cases h : jsLtCmp (cmp y z)
    · simp [insertCmp, h]
      try tauto
    · simp [insertCmp, h, ih]
      try tauto

theorem mem_jsSortWith_foldl {β : Type} {cmp : β → β → Option Int} {x : β}
    (l acc : List β) :
    (x ∈ l.foldl (fun acc y => insertCmp cmp y acc) acc) ↔ x ∈ acc ∨ x ∈ l := by
  induction l generalizing acc with
  | nil => simp
  | cons z zs ih =>
    rw [List.foldl_cons, ih]
    rw [mem_insertCmp]
    simp
    tauto

theorem mem_jsSortWith {β : Type} {cmp : β → β → Option Int} {x : β} {l : List β} :
    x ∈ jsSortWith cmp l ↔ x ∈ l := by
  rw [jsSortWith, mem_jsSortWith_foldl]
  simp

/-- Test vector of the skills-sort claim (with `is_featured` set so the
featured filter keeps all four, as the claim's shaping context
requires): B and A carry no sort_order, A's proficiency is null. -/
def skillB : Doc := { name := some "B", proficiency := .num 3, is_featured := some true }

def skillA : Doc := { name := some "A", proficiency := .jnull, is_featured := some true }

def skillC : Doc :=
  { name := some "C", proficiency := .num 3, sort_order := some 1, is_featured := some true }

def skillD : Doc :=
  { name := some "D", proficiency := .num 3, sort_order := some 0, is_featured := some true }

/-- Counterexample to C7: on the claim's input the shaped output order
is not D, C, B, A. B lacks a sort_order, so comparing B with C or D
makes the comparator return NaN (treated as equal) and the stable sort
keeps B in front. -/
theorem claim_C7_counterexample :
    (processFeaturedSkills [skillB, skillA, skillC, skillD]).map (fun d => d.name) ≠
      [some "D", some "C", some "B", some "A"] := by
  decide

/-- Amended C7: the shaping step keeps only skills with `is_featured =
true` and sorts with the comparator (proficiency descending nulls last,
then sort_order ascending, then name); on the claim's input, where B
and A lack sort_order, the NaN comparisons are ties and the stable sort
yields B, D, C, A. -/
theorem claim_C7_amended :
    (processFeaturedSkills [skillB, skillA, skillC, skillD]).map (fun d => d.name) =
      [some "B", some "D", some "C", some "A"] ∧
    (∀ skills : List Doc, ∀ d ∈ processFeaturedSkills skills, d.is_featured = some true) := by
  constructor
  · decide
  · intro skills d hd
    rw [processFeaturedSkills, mem_jsSortWith] at hd
    have := List.of_mem_filter hd
    simpa using this

/-- Counterexample to C10's final clause: after storing null, getItem
returns the stored value (null) even though it is not truthy, so
"returns v only when v is truthy" fails at v = null. -/
theorem claim_C10_counterexample :
    getItem (setItem [] "k" JSVal.jnull) "k" = JSVal.jnull ∧
    jsTruthy JSVal.jnull = false := by
  decide

theorem find?_cacheSetMap {γ : Type} (l : List (String × γ)) (key : String) (v : γ)
    (h : l.any (fun p => p.1 == key) = true) :
    ((l.map fun p => if p.1 == key then (p.1, v) else p).find? (fun p => p.1 == key)) =
      some (key, v) := by
  induction l with
  | nil => simp at h
  | cons e es ih =>
    by_cases he : (e.1 == key) = true
    · have he' : e.1 = key := by simpa using he
      rw [List.map_cons, if_pos he, List.find?]
      simp [he, he']
    · have he' : (e.1 == key) = false := by simpa using he
      rw [List.map_cons, if_neg (by simp [he']), List.find?]
      rw [he']
      have hes : es.any (fun p => p.1 == key) = true := by
        rcases (List.any_eq_true.mp h) with ⟨x, hx, hpx⟩
        rcases List.mem_cons.mp hx with hx | hx
        · subst hx
          rw [hpx] at he'
          cases he'
        · exact List.any_eq_true.mpr ⟨x, hx, hpx⟩
      exact ih hes

theorem cacheLookup_cacheSet_self {γ : Type} (entries : List (String × γ))
    (key : String) (v : γ) :
    cacheLookup (cacheSet entries key v) key = some v := by
  by_cases h : entries.any (fun p => p.1 == key) = true
  · rw [cacheSet, if_pos h, cacheLookup, find?_cacheSetMap entries key v h]
    rfl
  · have h' : entries.any (fun p => p.1 == key) = false := by
      rcases hb : entries.any (fun p => p.1 == key) with _ | _
      · rfl
      · exact absurd hb h
    have hall : ∀ p ∈ entries, (p.1 == key) = false := by
      intro p hp
      by_contra hc
      have hc' : (p.1 == key) = true := by simpa using hc
      have hab : entries.any (fun p => p.1 == key) = true :=
        List.any_eq_true.mpr ⟨p, hp, hc'⟩
      rw [hab] at h'
      cases h'
    rw [cacheSet, if_neg (by rw [h']; simp), cacheLookup,
      find?_append_of_forall_false hall]
    simp [List.find?]

/-- Amended C10: getItem yields null for an absent key and for any
stored falsy value, and getItem after setItem yields the stored value
when it is truthy and null otherwise (which coincides with the stored
value exactly when that value is null). -/
theorem claim_C10_amended (entries : List (String × JSVal)) (key : String) (v : JSVal) :
    (cacheLookup entries key = none → getItem entries key = JSVal.jnull) ∧
    (∀ w, cacheLookup entries key = some w → jsTruthy w = false →
      getItem entries key = JSVal.jnull) ∧
    getItem (setItem entries key v) key = (if jsTruthy v then v else JSVal.jnull) := by
  refine ⟨?_, ?_, ?_⟩
  · intro h
    simp [getItem, h]
  · intro w hw hf
    simp [getItem, hw, hf]
  · rw [getItem, setItem, cacheLookup_cacheSet_self]

/-- Witness for the amended C10 at concrete inputs: a truthy stored
value round-trips, and an absent key yields null. -/
theorem claim_C10_witness :
    getItem (setItem [] "portfolio_data:profile" (JSVal.jstr "me")) "portfolio_data:profile" =
      (if jsTruthy (JSVal.jstr "me") then JSVal.jstr "me" else JSVal.jnull) ∧
    getItem [] "absent" = JSVal.jnull :=
  ⟨(claim_C10_amended [] "portfolio_data:profile" (JSVal.jstr "me")).2.2,
   (claim_C10_amended [] "absent" JSVal.jnull).1 rfl⟩

/-- Counterexample to C9: an invocation that completes through the
skip path (a refresh already in progress) leaves the isRefreshing flag
true, not false. -/
theorem claim_C9_counterexample :
    (refreshCacheWithRetry true (fun _ => none)
      (MgrState.mk true [("portfolio_data:profile", (1 : Nat))])).1.isRefreshing = true := rfl

/-- Amended C9: the embedded refresh is total (never throws), the flag
after the call always equals the flag before it — in particular every
run that actually starts (flag false) completes with the flag false
again, on the health-abort, success and retries-exhausted paths alike —
and a skipped re-entrant call changes nothing at all, so a failed or
aborted refresh never permanently blocks later refreshes. -/
theorem claim_C9_amended {β : Type} (healthy : Bool)
    (fetch : Nat → Option (List (String × β))) (st : MgrState β) :
    (refreshCacheWithRetry healthy fetch st).1.isRefreshing = st.isRefreshing ∧
    (st.isRefreshing = false → (refreshCacheWithRetry healthy fetch st).1.isRefreshing = false) ∧
    (st.isRefreshing = true → refreshCacheWithRetry healthy fetch st = (st, [REvent.skip])) := by
  rcases hb : st.isRefreshing with _ | _
  · rcases hh : healthy with _ | _
    · simp [refreshCacheWithRetry, hb, hh]
    · simp [refreshCacheWithRetry, hb, hh]
  · simp [refreshCacheWithRetry, hb]

/-- Witness for the amended C9 at a concrete input: a run starting with
the flag down ends with the flag down. -/
theorem claim_C9_witness :
    (refreshCacheWithRetry true (fun _ => some [("profile", (1 : Nat))])
      (MgrState.mk false [])).1.isRefreshing = false :=
  (claim_C9_amended true (fun _ => some [("profile", (1 : Nat))]) (MgrState.mk false [])).2.1 rfl

theorem filter_isFetch_setKeys {β : Type} (l : List (String × β)) :
    ((l.map fun kv => REvent.setKey ("portfolio_data:" ++ kv.1)).filter isFetchEvent) = [] := by
  refine filter_eq_nil_of_forall_false ?_
  intro x hx
  rcases List.mem_map.mp hx with ⟨kv, _, hkv⟩
  rw [← hkv]
  rfl

theorem clearedOnlyAfterFetchOk_setKeys {β : Type} (l : List (String × β)) :
    clearedOnlyAfterFetchOk (l.map fun kv => REvent.setKey ("portfolio_data:" ++ kv.1)) = true := by
  induction l with
  | nil => rfl
  | cons kv rest ih =>
    simpa [clearedOnlyAfterFetchOk] using ih

theorem slept_not_mem_setKeys {β : Type} (l : List (String × β)) (ms : Nat) :
    REvent.slept ms ∉ (l.map fun kv => REvent.setKey ("portfolio_data:" ++ kv.1)) := by
  simp

/-- Claim C2: for every refresh invocation, an unhealthy probe leaves
the cache untouched; the trace clears the cache only immediately after
a successful full fetch; at most 3 fetch attempts happen; if all 3
attempts fail the cache is retained unchanged; every backoff sleep is
one of the exponential delays 1s, 2s, 4s; and a first-attempt success
swaps the cache to exactly the freshly fetched dataset. -/
theorem claim_C2 {β : Type} (healthy : Bool) (fetch : Nat → Option (List (String × β)))
    (st : MgrState β) :
    (healthy = false → (refreshCacheWithRetry healthy fetch st).1.cache = st.cache) ∧
    countFetches (refreshCacheWithRetry healthy fetch st).2 ≤ 3 ∧
    clearedOnlyAfterFetchOk (refreshCacheWithRetry healthy fetch st).2 = true ∧
    ((fetch 1 = none ∧ fetch 2 = none ∧ fetch 3 = none) →
      (refreshCacheWithRetry healthy fetch st).1.cache = st.cache) ∧
    (∀ ms, REvent.slept ms ∈ (refreshCacheWithRetry healthy fetch st).2 →
      ms = 1000 ∨ ms = 2000 ∨ ms = 4000) ∧
    (st.isRefreshing = false → healthy = true → ∀ items, fetch 1 = some items →
      (refreshCacheWithRetry healthy fetch st).1.cache = populateCache items) := by
  rcases hb : st.isRefreshing with _ | _
  · rcases hh : healthy with _ | _
    · refine ⟨?_, ?_, ?_, ?_, ?_, ?_⟩
      · intro _
        simp [refreshCacheWithRetry, hb]
      · simp [refreshCacheWithRetry, hb, countFetches, isFetchEvent]
      · simp [refreshCacheWithRetry, hb, clearedOnlyAfterFetchOk]
      · intro _
        simp [refreshCacheWithRetry, hb]
      · intro ms hms
        simp [refreshCacheWithRetry, hb] at hms
      · intro _ hcontra
        cases hcontra
    · rcases h1 : fetch 1 with _ | items1
      · rcases h2 : fetch 2 with _ | items2
        · rcases h3 : fetch 3 with _ | items3
          · refine ⟨?_, ?_, ?_, ?_, ?_, ?_⟩
            · intro hcontra
              cases hcontra
            · simp [refreshCacheWithRetry, hb, refreshGo, h1, h2, h3, countFetches,
                List.filter_cons, isFetchEvent]
            · simp [refreshCacheWithRetry, hb, refreshGo, h1, h2, h3,
                clearedOnlyAfterFetchOk]
            · intro _
              simp [refreshCacheWithRetry, hb, refreshGo, h1, h2, h3]
            · intro ms hms
              simp [refreshCacheWithRetry, hb, refreshGo, h1, h2, h3] at hms
              try omega
            · intro _ _ items hitems
              cases hitems
          · refine ⟨?_, ?_, ?_, ?_, ?_, ?_⟩
            · intro hcontra
              cases hcontra
            · simp [refreshCacheWithRetry, hb, refreshGo, h1, h2, h3, countFetches,
                List.filter_cons, List.filter_append, filter_isFetch_setKeys, isFetchEvent]
            · simp [refreshCacheWithRetry, hb, refreshGo, h1, h2, h3,
                clearedOnlyAfterFetchOk, clearedOnlyAfterFetchOk_setKeys]
            · intro hcontra
              cases hcontra.2.2
            · intro ms hms
              simp [refreshCacheWithRetry, hb, refreshGo, h1, h2, h3] at hms
              try omega
            · intro _ _ items hitems
              cases hitems
        · refine ⟨?_, ?_, ?_, ?_, ?_, ?_⟩
          · intro hcontra
            cases hcontra
          · simp [refreshCacheWithRetry, hb, refreshGo, h1, h2, countFetches,
              List.filter_cons, List.filter_append, filter_isFetch_setKeys, isFetchEvent]
          · simp [refreshCacheWithRetry, hb, refreshGo, h1, h2,
              clearedOnlyAfterFetchOk, clearedOnlyAfterFetchOk_setKeys]
          · intro hcontra
            cases hcontra.2.1
          · intro ms hms
            simp [refreshCacheWithRetry, hb, refreshGo, h1, h2] at hms
            try omega
          · intro _ _ items hitems
            cases hitems
      · refine ⟨?_, ?_, ?_, ?_, ?_, ?_⟩
        · intro hcontra
          cases hcontra
        · simp [refreshCacheWithRetry, hb, refreshGo, h1, countFetches,
            List.filter_cons, List.filter_append, filter_isFetch_setKeys, isFetchEvent]
        · simp [refreshCacheWithRetry, hb, refreshGo, h1,
            clearedOnlyAfterFetchOk, clearedOnlyAfterFetchOk_setKeys]
        · intro hcontra
          cases hcontra.1
        · intro ms hms
          simp [refreshCacheWithRetry, hb, refreshGo, h1] at hms
          try omega
        · intro _ _ items hitems
          cases hitems
          simp [refreshCacheWithRetry, hb, refreshGo, h1]
  · refine ⟨?_, ?_, ?_, ?_, ?_, ?_⟩
    · intro _
      simp [refreshCacheWithRetry, hb]
    · simp [refreshCacheWithRetry, hb, countFetches, isFetchEvent]
    · simp [refreshCacheWithRetry, hb, clearedOnlyAfterFetchOk]
    · intro _
      simp [refreshCacheWithRetry, hb]
    · intro ms hms
      simp [refreshCacheWithRetry, hb] at hms
    · intro hcontra
      cases hcontra

/-- Witness for C2 at a concrete input: three failed attempts retain
the previously cached entry unchanged. -/
theorem claim_C2_witness :
    (refreshCacheWithRetry true (fun _ => (none : Option (List (String × Nat))))
      (MgrState.mk false [("portfolio_data:profile", 5)])).1.cache =
      [("portfolio_data:profile", 5)] :=
  (claim_C2 true (fun _ => none) (MgrState.mk false [("portfolio_data:profile", 5)])).2.2.2.1
    ⟨rfl, rfl, rfl⟩

/-- Claim C3: with caching disabled, getPortfolioData always shapes the
full database read; with caching enabled, a non-empty set of cached
namespace entries is shaped from the cache alone, zero entries fall
back to the database read, and a cache-access failure falls back to the
database read instead of propagating. -/
theorem claim_C3 (cacheRes dbRes : Except Unit (List (String × Doc))) :
    (getPortfolioData false cacheRes dbRes = fetchAndProcessFromDB dbRes) ∧
    (∀ entries, cacheRes = .ok entries →
      (entries.filter fun e => e.1.startsWith "portfolio_data:") ≠ [] →
      getPortfolioData true cacheRes dbRes =
        .ok (processPortfolioItems (entries.filter fun e => e.1.startsWith "portfolio_data:"))) ∧
    (∀ entries, cacheRes = .ok entries →
      (entries.filter fun e => e.1.startsWith "portfolio_data:") = [] →
      getPortfolioData true cacheRes dbRes = fetchAndProcessFromDB dbRes) ∧
    (∀ err, cacheRes = .error err → getPortfolioData true cacheRes dbRes =
      fetchAndProcessFromDB dbRes) := by
  refine ⟨rfl, ?_, ?_, ?_⟩
  · intro entries hc hne
    have hlen : 0 < (entries.filter fun e => e.1.startsWith "portfolio_data:").length :=
      List.length_pos.mpr hne
    simp [getPortfolioData, hc, hlen]
  · intro entries hc hnil
    simp [getPortfolioData, hc, hnil]
  · intro err hc
    simp [getPortfolioData, hc]

/-- Witness for C3 at concrete inputs: a failed cache read falls back
to the database path. -/
theorem claim_C3_witness :
    getPortfolioData true (Except.error ()) (Except.ok []) =
      fetchAndProcessFromDB (Except.ok ([] : List (String × Doc))) :=
  (claim_C3 (Except.error ()) (Except.ok [])).2.2.2 () rfl

/-! Theorems for the compound-write claims. -/

theorem achKey_ne_expKey (x y : String) : ("achievement:" ++ x) ≠ ("experience:" ++ y) := by
  intro h
  have hd : ("achievement:" ++ x).data = ("experience:" ++ y).data := by rw [h]
  simp [String.data_append] at hd

theorem filter_map_filter {β γ : Type} (p : β → Bool) (f : β → γ) (q : γ → Bool)
    (l : List β) :
    ((l.filter p).map f).filter q = (l.filter fun x => p x && q (f x)).map f := by
  induction l with
  | nil => rfl
  | cons x xs ih =>
    by_cases hp : p x = true
    · by_cases hq : q (f x) = true
      · simp [List.filter_cons, hp, hq, ih]
      · simp [List.filter_cons, hp, hq, ih]
    · simp [List.filter_cons, hp, ih]

/-- Every row produced by the achievement deactivation fails the
"active achievement of this experience" test. -/
theorem deactAch_elem_false (id : String) (r : Row Doc) :
    (((if r.type == "achievement" && r.value.experience_id == some id && r.is_active
        then { r with is_active := false } else r).type == "achievement" &&
      (if r.type == "achievement" && r.value.experience_id == some id && r.is_active
        then { r with is_active := false } else r).is_active) &&
      (if r.type == "achievement" && r.value.experience_id == some id && r.is_active
        then { r with is_active := false } else r).value.experience_id == some id) = false := by
  by_cases h : (r.type == "achievement" && r.value.experience_id == some id && r.is_active) = true
  · rw [if_pos h]
    simp
  · rw [if_neg h]
    simp only [Bool.and_eq_true, beq_iff_eq, not_and, Bool.not_eq_true] at h
    simp only [Bool.and_eq_false_iff, Bool.and_eq_true, beq_iff_eq, Bool.not_eq_true]
    by_cases ht : r.type = "achievement"
    · by_cases he : r.value.experience_id = some id
      · have := h ⟨ht, he⟩
        left
        right
        simp [this]
      · right
        simp [he]
    · left
      left
      simp [ht]

theorem filter_deactAch (id : String) (rows : List (Row Doc)) :
    (deactivateAchievementsFor id rows).filter
      (fun r => (r.type == "achievement" && r.is_active) &&
        r.value.experience_id == some id) = [] := by
  refine filter_eq_nil_of_forall_false ?_
  intro x hx
  rcases List.mem_map.mp hx with ⟨r, _, hr⟩
  rw [← hr]
  exact deactAch_elem_false id r

/-- Specification of the achievement-insertion loop: it appends rows
that are active achievements of the experience, version 1 each, whose
values are exactly the returned created list, one per input entry. -/
theorem insertAchievements_spec (expId now : String) (uuid : Nat → String)
    (achs : List AchInput) (i n : Nat) (s : Store Doc) :
    ∃ extra : List (Row Doc),
      (insertAchievements expId now uuid achs i n s).1.rows = s.rows ++ extra ∧
      extra.map (fun r => r.value) = (insertAchievements expId now uuid achs i n s).2 ∧
      (insertAchievements expId now uuid achs i n s).2.length = achs.length ∧
      ∀ r ∈ extra, r.type = "achievement" ∧ r.is_active = true ∧ r.version = 1 ∧
        r.value.experience_id = some expId ∧ ∃ x, r.key = "achievement:" ++ x := by
  induction achs generalizing i n s with
  | nil =>
    exact ⟨[], by simp [insertAchievements], by simp [insertAchievements], rfl, by simp⟩
  | cons a rest ih =>
    simp only [insertAchievements]
    rcases ih (i + 1) (if jsTruthyStr a.id then n else n + 2)
        (⟨s.rows ++ [Row.mk ("achievement:" ++ jsOrStr a.id (uuid n)) "achievement"
          { id := some (jsOrStr a.id (uuid (n + 1))), experience_id := some expId,
            description := a.description, icon_name := a.icon_name, metrics := a.metrics,
            sort_order := some (jsOrNum a.sort_order i), created_at := some now }
          1 true s.clock], s.clock + 1⟩ : Store Doc) with
      ⟨extra, hrows, hvals, hlen, hprops⟩
    refine ⟨Row.mk ("achievement:" ++ jsOrStr a.id (uuid n)) "achievement"
      { id := some (jsOrStr a.id (uuid (n + 1))), experience_id := some expId,
        description := a.description, icon_name := a.icon_name, metrics := a.metrics,
        sort_order := some (jsOrNum a.sort_order i), created_at := some now }
      1 true s.clock :: extra, ?_, ?_, ?_, ?_⟩
    · rw [hrows]
      simp
    · simp [hvals]
    · simp [hlen]
    · intro r hr
      rcases List.mem_cons.mp hr with hr | hr
      · subst hr
        exact ⟨rfl, rfl, rfl, rfl, jsOrStr a.id (uuid n), rfl⟩
      · exact hprops r hr

/-- Every row produced by deactivateKey fails the "active with this
key" test. -/
theorem deactKey_elem_false {α : Type} (key : String) (r : Row α) :
    ((if r.key == key && r.is_active then { r with is_active := false } else r).key == key &&
     (if r.key == key && r.is_active then { r with is_active := false } else r).is_active) =
      false := by
  by_cases h : (r.key == key && r.is_active) = true
  · rw [if_pos h]
    simp only [Bool.and_eq_true, beq_iff_eq] at h
    simp [h.1]
  · rw [if_neg h]
    simpa using h

theorem activeFor_deactivateKey {α : Type} (key : String) (rows : List (Row α)) :
    activeFor key (deactivateKey key rows) = [] := by
  refine filter_eq_nil_of_forall_false ?_
  intro x hx
  rcases List.mem_map.mp hx with ⟨r, _, hr⟩
  rw [← hr]
  exact deactKey_elem_false key r

theorem maxVersion_foldl_deactivateKey {α : Type} (key : String) (rows : List (Row α))
    (m : Nat) :
    (deactivateKey key rows).foldl
        (fun m r => if r.key == key then max m r.version else m) m =
      rows.foldl (fun m r => if r.key == key then max m r.version else m) m := by
  induction rows generalizing m with
  | nil => rfl
  | cons r rs ih =>
    rw [deactivateKey, List.map_cons]
    rw [List.foldl_cons, List.foldl_cons]
    by_cases h : (r.key == key && r.is_active) = true
    · rw [if_pos h]
      exact ih _
    · rw [if_neg h]
      exact ih _

theorem maxVersion_deactivateKey {α : Type} (key : String) (rows : List (Row α)) :
    maxVersion key (deactivateKey key rows) = maxVersion key rows :=
  maxVersion_foldl_deactivateKey key rows 0

theorem activeFor_cons {α : Type} (key : String) (r : Row α) (rs : List (Row α)) :
    activeFor key (r :: rs) =
      if (r.key == key && r.is_active) = true then r :: activeFor key rs
      else activeFor key rs := by
  simp only [activeFor, List.filter_cons]

/-- Achievement deactivation does not disturb the active rows of a key
whose active rows are not achievements. -/
theorem activeFor_deactAch (id key : String) (rows : List (Row Doc))
    (hnew : ∀ r ∈ rows, (r.key == key && r.is_active) = true →
      (r.type == "achievement") = false) :
    activeFor key (deactivateAchievementsFor id rows) = activeFor key rows := by
  induction rows with
  | nil => rfl
  | cons r rs ih =>
    have hrs : ∀ x ∈ rs, (x.key == key && x.is_active) = true →
        (x.type == "achievement") = false :=
      fun x hx => hnew x (by simp [hx])
    have hcons : deactivateAchievementsFor id (r :: rs) =
        (if (r.type == "achievement" && r.value.experience_id == some id && r.is_active) = true
         then { r with is_active := false } else r) :: deactivateAchievementsFor id rs := rfl
    rw [hcons]
    by_cases hc : (r.type == "achievement" && r.value.experience_id == some id &&
        r.is_active) = true
    · rw [if_pos hc]
      have hty : (r.type == "achievement") = true := by
        simp only [Bool.and_eq_true] at hc
        exact hc.1.1
      have hkf : (r.key == key && r.is_active) = false := by
        by_cases hk : (r.key == key && r.is_active) = true
        · rw [hnew r (by simp) hk] at hty
          cases hty
        · simpa using hk
      rw [activeFor_cons, activeFor_cons]
      have hkf2 : (({ r with is_active := false } : Row Doc).key == key &&
          ({ r with is_active := false } : Row Doc).is_active) = false := by
        simp
      rw [hkf, hkf2]
      simp only [Bool.false_eq_true, if_false]
      exact ih hrs
    · rw [if_neg hc]
      rw [activeFor_cons, activeFor_cons]
      by_cases hk : (r.key == key && r.is_active) = true
      · rw [hk, if_pos rfl, if_pos rfl, ih hrs]
      · have hk' : (r.key == key && r.is_active) = false := by simpa using hk
        rw [hk']
        simp only [Bool.false_eq_true, if_false]
        exact ih hrs

/-- Claim C5: on any store holding an active experience for the id,
updateExperienceWithAchievements succeeds and atomically (a) bumps the
experience: the single active record under the experience key now has
version max-existing + 1, (b) removes every previously attached
achievement, and (c) inserts exactly one fresh version-1 achievement
record per supplied entry — so the attached achievements afterwards are
exactly the created list (empty input leaves zero attached). -/
theorem claim_C5 (id : String) (patch : Doc) (achs : List AchInput) (now : String)
    (uuid : Nat → String) (s : Store Doc) (cur : Doc)
    (h : getPortfolioItem ("experience:" ++ id) s = some cur) :
    ∃ s' ret ds, updateExperienceWithAchievements id patch achs now uuid s =
        .ok (s', (ret, ds)) ∧
      ds.length = achs.length ∧
      getAchievementsForExperience (some id) s' = ds ∧
      (∀ d ∈ ds, d.experience_id = some id) ∧
      (∀ r ∈ s'.rows,
        ((r.type == "achievement" && r.is_active) && r.value.experience_id == some id) = true →
        r.version = 1) ∧
      (achs = [] → getAchievementsForExperience (some id) s' = []) ∧
      (activeFor ("experience:" ++ id) s'.rows).map (fun r => r.version) =
        [maxVersion ("experience:" ++ id) s.rows + 1] := by
  classical
  set expKey := "experience:" ++ id with hexp
  set newExp : Doc := { mergeDoc cur patch with
    id := some id, created_at := cur.created_at, updated_at := some now } with hnewExp
  set rows1 := deactivateKey expKey s.rows with hrows1
  set nextVersion := maxVersion expKey rows1 + 1 with hnext
  set s1 : Store Doc :=
    ⟨rows1 ++ [Row.mk expKey "experience" newExp nextVersion true s.clock], s.clock + 1⟩
    with hs1
  set s2 : Store Doc := ⟨deactivateAchievementsFor id s1.rows, s1.clock⟩ with hs2
  rcases insertAchievements_spec id now uuid achs 0 0 s2 with
    ⟨extra, hrows, hvals, hlen, hprops⟩
  set s3 := (insertAchievements id now uuid achs 0 0 s2).1 with hs3
  set ds := (insertAchievements id now uuid achs 0 0 s2).2 with hds
  have hok : updateExperienceWithAchievements id patch achs now uuid s =
      .ok (s3, ({ mergeDoc cur patch with id := some id }, ds)) := by
    rw [updateExperienceWithAchievements]
    rw [← hexp, h]
  have hfilter_extra : extra.filter
      (fun r => (r.type == "achievement" && r.is_active) &&
        r.value.experience_id == some id) = extra := by
    refine List.filter_eq_self.mpr ?_
    intro r hr
    rcases hprops r hr with ⟨ht, ha, _, he, _⟩
    simp [ht, ha, he]
  have hget : getAchievementsForExperience (some id) s3 = ds := by
    rw [getAchievementsForExperience, getPortfolioItemsByTypeWithFilter,
      getPortfolioItemsByType, filter_map_filter]
    rw [hrows, List.filter_append, filter_deactAch, hfilter_extra]
    simpa using hvals
  refine ⟨s3, { mergeDoc cur patch with id := some id }, ds, hok, hlen, hget, ?_, ?_, ?_, ?_⟩
  · intro d hd
    rw [← hvals] at hd
    rcases List.mem_map.mp hd with ⟨r, hr, hrd⟩
    rw [← hrd]
    exact (hprops r hr).2.2.2.1
  · intro r hr hpred
    rw [hrows] at hr
    rcases List.mem_append.mp hr with hr | hr
    · exfalso
      have : r ∈ (deactivateAchievementsFor id s1.rows).filter
          (fun r => (r.type == "achievement" && r.is_active) &&
            r.value.experience_id == some id) :=
        List.mem_filter.mpr ⟨hr, hpred⟩
      rw [filter_deactAch] at this
      cases this
    · exact (hprops r hr).2.2.1
  · intro hnil
    rw [hget, ← hvals]
    subst hnil
    rcases hrows with _
    have : ds.length = 0 := by
      rw [hlen]
      rfl
    rw [← hvals] at this
    rcases extra with _ | ⟨r, rest⟩
    · rfl
    · cases this
  · have hactive2 : activeFor expKey s2.rows =
        [Row.mk expKey "experience" newExp nextVersion true s.clock] := by
      rw [hs2]
      show activeFor expKey (deactivateAchievementsFor id s1.rows) = _
      have hn : ∀ r ∈ s1.rows, (r.key == expKey && r.is_active) = true →
          (r.type == "achievement") = false := by
        intro r hrmem hract
        rw [hs1] at hrmem
        rcases List.mem_append.mp hrmem with hrmem | hrmem
        · exfalso
          have : r ∈ activeFor expKey rows1 := List.mem_filter.mpr ⟨hrmem, hract⟩
          rw [hrows1, activeFor_deactivateKey] at this
          cases this
        · have : r = Row.mk expKey "experience" newExp nextVersion true s.clock := by
            simpa using hrmem
          rw [this]
          rfl
      rw [activeFor_deactAch id expKey s1.rows hn]
      show activeFor expKey
        (rows1 ++ [Row.mk expKey "experience" newExp nextVersion true s.clock]) = _
      rw [activeFor, List.filter_append]
      rw [show List.filter (fun r => r.key == expKey && r.is_active) rows1 = [] from by
        rw [hrows1]
        exact activeFor_deactivateKey expKey s.rows]
      simp
    have hextra_nokey : List.filter (fun r => r.key == expKey && r.is_active) extra = [] := by
      refine filter_eq_nil_of_forall_false ?_
      intro r hr
      rcases hprops r hr with ⟨_, _, _, _, x, hx⟩
      have : (r.key == expKey) = false := by
        rw [hx, hexp]
        simp [achKey_ne_expKey x id]
      simp [this]
    have : activeFor expKey s3.rows =
        [Row.mk expKey "experience" newExp nextVersion true s.clock] := by
      rw [hrows, activeFor, List.filter_append, hextra_nokey]
      rw [activeFor] at hactive2
      rw [hactive2]
      simp
    rw [this]
    simp only [List.map_cons, List.map_nil]
    rw [hnext, hrows1, maxVersion_deactivateKey]

/-- Witness for C5 at a concrete input: a store holding one experience
with one attached achievement, updated with an empty achievement list,
keeps zero attached achievements. -/
theorem claim_C5_witness :
    (∃ s' ret ds, updateExperienceWithAchievements "e1" ({ } : Doc) [] "t1" (fun _ => "u")
        (Store.mk
          [Row.mk "experience:e1" "experience" { id := some "e1" } 1 true 0,
           Row.mk "achievement:a1" "achievement"
             { id := some "a1", experience_id := some "e1" } 1 true 1] 2) =
          .ok (s', (ret, ds)) ∧
      getAchievementsForExperience (some "e1") s' = ds ∧ ds = []) := by
  rcases claim_C5 "e1" ({ } : Doc) [] "t1" (fun _ => "u")
      (Store.mk
        [Row.mk "experience:e1" "experience" { id := some "e1" } 1 true 0,
         Row.mk "achievement:a1" "achievement"
           { id := some "a1", experience_id := some "e1" } 1 true 1] 2)
      { id := some "e1" } (by decide) with
    ⟨s', ret, ds, hok, hlen, hget, _, _, hemp, _⟩
  exact ⟨s', ret, ds, hok, hget, List.length_eq_zero.mp hlen⟩

theorem deactTech_elem_false (id : String) (r : Row Doc) :
    (((if r.type == "project_tech" && r.value.project_id == some id && r.is_active
        then { r with is_active := false } else r).type == "project_tech" &&
      (if r.type == "project_tech" && r.value.project_id == some id && r.is_active
        then { r with is_active := false } else r).is_active) &&
      (if r.type == "project_tech" && r.value.project_id == some id && r.is_active
        then { r with is_active := false } else r).value.project_id == some id) = false := by
  by_cases h : (r.type == "project_tech" && r.value.project_id == some id && r.is_active) = true
  · rw [if_pos h]
    simp
  · rw [if_neg h]
    simp only [Bool.and_eq_true, beq_iff_eq, not_and, Bool.not_eq_true] at h
    simp only [Bool.and_eq_false_iff, Bool.and_eq_true, beq_iff_eq, Bool.not_eq_true]
    by_cases ht : r.type = "project_tech"
    · by_cases he : r.value.project_id = some id
      · have := h ⟨ht, he⟩
        left
        right
        simp [this]
      · right
        simp [he]
    · left
      left
      simp [ht]

theorem filter_deactTech (id : String) (rows : List (Row Doc)) :
    (deactivateTechRows id rows).filter
      (fun r => (r.type == "project_tech" && r.is_active) &&
        r.value.project_id == some id) = [] := by
  refine filter_eq_nil_of_forall_false ?_
  intro x hx
  rcases List.mem_map.mp hx with ⟨r, _, hr⟩
  rw [← hr]
  exact deactTech_elem_false id r

/-- Specification of the technology-insertion loop: it appends rows
that are active version-1 `project_tech` rows of the project, one per
technology, carrying exactly the supplied technologies in order. -/
theorem insertTechRows_spec (id now : String) (techs : List String) (st : Store Doc) :
    ∃ extra : List (Row Doc),
      (insertTechRows id now techs st).rows = st.rows ++ extra ∧
      extra.map (fun r => r.value.technology) = techs.map some ∧
      ∀ r ∈ extra, r.type = "project_tech" ∧ r.is_active = true ∧ r.version = 1 ∧
        r.value.project_id = some id := by
  induction techs generalizing st with
  | nil => exact ⟨[], by simp [insertTechRows], rfl, by simp⟩
  | cons t rest ih =>
    rw [insertTechRows, List.foldl_cons]
    rcases ih (⟨st.rows ++ [Row.mk ("project_tech:" ++ id ++ ":" ++ t) "project_tech"
        { project_id := some id, technology := some t, created_at := some now }
        1 true st.clock], st.clock + 1⟩ : Store Doc) with ⟨extra, hrows, htech, hprops⟩
    refine ⟨Row.mk ("project_tech:" ++ id ++ ":" ++ t) "project_tech"
      { project_id := some id, technology := some t, created_at := some now }
      1 true st.clock :: extra, ?_, ?_, ?_⟩
    · rw [show insertTechRows id now rest
          (⟨st.rows ++ [Row.mk ("project_tech:" ++ id ++ ":" ++ t) "project_tech"
            { project_id := some id, technology := some t, created_at := some now }
            1 true st.clock], st.clock + 1⟩ : Store Doc) =
          List.foldl _ _ rest from rfl] at hrows
      rw [hrows]
      simp
    · simp [htech]
    · intro r hr
      rcases List.mem_cons.mp hr with hr | hr
      · subst hr
        exact ⟨rfl, rfl, rfl, rfl⟩
      · exact hprops r hr

/-- Demo project payload of the end-to-end scenario. -/
def demoProject : Doc :=
  { id := some "p1", slug := some "demo", status := some "published",
    technologies := some ["go", "postgres"] }

/-- Store after creating the demo project in an empty store. -/
def demoStore1 : Store Doc := (createProject demoProject "t0" (Store.mk [] 0)).1

/-- Update payload carrying only the shrunk technologies list. -/
def demoPatch : Doc := { technologies := some ["go"] }

/-- Store with an active demo project and one active gallery image
row. -/
def imgStore : Store Doc := Store.mk
  [Row.mk "project:p1" "project"
    { id := some "p1", slug := some "demo", status := some "published" } 1 true 0,
   Row.mk "project_image:i1" "project_image"
    { id := some "i1", project_id := some "p1", image_url := some "old.png",
      sort_order := some 0 } 1 true 1] 2

/-- Update payload carrying only a new images list. -/
def imgPatch : Doc := { images := some [ImageInput.mk "new.png" "" "" 0] }

/-- Counterexample to C4's images clause: updating the project with a
full images list containing only new.png leaves the previously active
`project_image` row (old.png) active and inserts no image rows — no
replace-all happens for images, the list is merely merged into the
project document. -/
theorem claim_C4_counterexample :
    (updateProject "p1" imgPatch "t2" imgStore).map
        (fun p => (getImagesForProject (some "p1") p.1).map (fun d => d.image_url)) =
      .ok [some "old.png"] ∧
    (some "old.png" : Option String) ≠ some "new.png" :=
  ⟨rfl, by decide⟩

/-- Amended C4: replace-all holds for technologies — updating a project
whose patch carries a technologies list deactivates every active
`project_tech` row of the project and inserts exactly the new set at
version 1 — and the end-to-end demo scenario holds (create with go and
postgres, fetch by slug sees both, update to go alone, re-fetch sees
exactly go). Images are not replace-all: they only ride inside the
project document (see the counterexample). -/
theorem claim_C4_amended (id : String) (patch : Doc) (now : String) (s : Store Doc)
    (cur : Doc) (techs : List String)
    (h : getPortfolioItem ("project:" ++ id) s = some cur)
    (hp : patch.technologies = some techs) :
    (∃ s' ret, updateProject id patch now s = .ok (s', ret) ∧
      (getTechnologiesForProject (some id) s').map (fun d => d.technology) = techs.map some ∧
      ∀ r ∈ s'.rows,
        ((r.type == "project_tech" && r.is_active) && r.value.project_id == some id) = true →
        r.version = 1) ∧
    ((getProjectBySlug "demo" demoStore1).map (fun p => p.technologies) =
      some [some "go", some "postgres"] ∧
     (updateProject "p1" demoPatch "t1" demoStore1).map
        (fun p => (getProjectBySlug "demo" p.1).map (fun v => v.technologies)) =
      .ok (some [some "go"])) := by
  constructor
  · set projectKey := "project:" ++ id with hpk
    set rows1 := deactivateKey projectKey s.rows with hrows1
    set newDoc : Doc := { mergeDoc cur patch with
      id := some id, created_at := cur.created_at, updated_at := some now } with hnd
    set s1 : Store Doc :=
      ⟨rows1 ++ [Row.mk projectKey "project" newDoc (maxVersion projectKey rows1 + 1)
        true s.clock], s.clock + 1⟩ with hs1
    set start : Store Doc := ⟨deactivateTechRows id s1.rows, s1.clock⟩ with hstart
    rcases insertTechRows_spec id now techs start with ⟨extra, hrows, htech, hprops⟩
    refine ⟨insertTechRows id now techs start,
      { mergeDoc cur patch with id := some id }, ?_, ?_, ?_⟩
    · rw [updateProject]
      rw [← hpk, h, hp]
    · rw [getTechnologiesForProject, getPortfolioItemsByTypeWithFilter,
        getPortfolioItemsByType, filter_map_filter, hrows]
      rw [List.filter_append]
      rw [show List.filter (fun r => (r.type == "project_tech" && r.is_active) &&
          r.value.project_id == some id) start.rows = [] from filter_deactTech id s1.rows]
      have hfe : extra.filter (fun r => (r.type == "project_tech" && r.is_active) &&
          r.value.project_id == some id) = extra := by
        refine List.filter_eq_self.mpr ?_
        intro r hr
        rcases hprops r hr with ⟨ht, ha, _, hpid⟩
        simp [ht, ha, hpid]
      rw [hfe]
      rw [List.nil_append, List.map_map]
      exact htech
    · intro r hr hpred
      rw [hrows] at hr
      rcases List.mem_append.mp hr with hr | hr
      · exfalso
        have : r ∈ List.filter (fun r => (r.type == "project_tech" && r.is_active) &&
            r.value.project_id == some id) start.rows :=
          List.mem_filter.mpr ⟨hr, hpred⟩
        rw [show List.filter (fun r => (r.type == "project_tech" && r.is_active) &&
            r.value.project_id == some id) start.rows = [] from filter_deactTech id s1.rows]
          at this
        cases this
      · exact (hprops r hr).2.2.1
  · constructor
    · decide
    · rfl

/-- Witness for the amended C4 at a concrete input: updating the stored
demo project with technologies react alone leaves react as the only
active technology row. -/
theorem claim_C4_witness :
    getPortfolioItem "project:p1" imgStore =
      some { id := some "p1", slug := some "demo", status := some "published" } ∧
    (∃ s' ret, updateProject "p1" ({ technologies := some ["react"] } : Doc) "t3" imgStore =
        .ok (s', ret) ∧
      (getTechnologiesForProject (some "p1") s').map (fun d => d.technology) =
        (["react"].map some) ∧
      ∀ r ∈ s'.rows,
        ((r.type == "project_tech" && r.is_active) && r.value.project_id == some "p1") = true →
        r.version = 1) :=
  ⟨by decide,
   (claim_C4_amended "p1" ({ technologies := some ["react"] } : Doc) "t3" imgStore
     { id := some "p1", slug := some "demo", status := some "published" } ["react"]
     (by decide) rfl).1⟩

/-! Theorems for the statistics claim. -/

theorem find?_append_split {β : Type} (l1 l2 : List β) (p : β → Bool) :
    (l1 ++ l2).find? p =
      match l1.find? p with
      | some x => some x
      | none => l2.find? p := by
  induction l1 with
  | nil => simp
  | cons x xs ih =>
    by_cases h : p x = true
    · rw [List.cons_append, List.find?_cons_of_pos _ h, List.find?_cons_of_pos _ h]
    · rw [List.cons_append, List.find?_cons_of_neg _ h, List.find?_cons_of_neg _ h, ih]

theorem find?_map_group {γ : Type} (k j : String) (x : γ) (acc : List (String × List γ)) :
    ((acc.map fun p => if p.1 == k then (p.1, p.2 ++ [x]) else p).find?
        (fun p => p.1 == j)) =
      (acc.find? (fun p => p.1 == j)).map
        (fun p => if p.1 == k then (p.1, p.2 ++ [x]) else p) := by
  induction acc with
  | nil => rfl
  | cons e es ih =>
    have hfst : ((if e.1 == k then (e.1, e.2 ++ [x]) else e) : String × List γ).1 = e.1 := by
      by_cases hk : (e.1 == k) = true
      · rw [if_pos hk]
      · rw [if_neg hk]
    rw [List.map_cons]
    by_cases hj : (e.1 == j) = true
    · simp only [List.find?]
      rw [hfst, hj]
      rfl
    · have hj' : (e.1 == j) = false := by simpa using hj
      simp only [List.find?]
      rw [hfst, hj']
      exact ih

theorem lookupGroup_pushGroup {γ : Type} (acc : List (String × List γ)) (k j : String)
    (x : γ) :
    lookupGroup (pushGroup acc k x) j =
      lookupGroup acc j ++ (if (k == j) = true then [x] else []) := by
  by_cases hany : (acc.any fun p => p.1 == k) = true
  · rw [pushGroup, if_pos hany, lookupGroup, find?_map_group]
    rcases hf : acc.find? (fun p => p.1 == j) with _ | e
    · rw [lookupGroup, hf]
      by_cases hkj : (k == j) = true
      · exfalso
        have hkj' : k = j := by simpa using hkj
        subst hkj'
        rcases List.any_eq_true.mp hany with ⟨p, hp, hpk⟩
        exact (List.find?_eq_none.mp hf p hp) hpk
      · have hkj' : (k == j) = false := by simpa using hkj
        simp [hkj']
    · have hej : e.1 = j := by simpa using List.find?_some hf
      rw [lookupGroup, hf]
      simp only [Option.map_some']
      by_cases hkj : (k == j) = true
      · have hkj' : k = j := by simpa using hkj
        have : (e.1 == k) = true := by
          rw [hej, hkj']
          simp
        rw [if_pos this, hkj]
        simp
      · have hkj' : (k == j) = false := by simpa using hkj
        have hknej : ¬k = j := by simpa using hkj
        have : (e.1 == k) = false := by
          rw [hej]
          simp only [beq_eq_false_iff_ne, ne_eq]
          intro hx
          exact hknej hx.symm
        rw [if_neg (by simp [this]), hkj']
        simp
  · rw [pushGroup, if_neg hany, lookupGroup, find?_append_split]
    rcases hf : acc.find? (fun p => p.1 == j) with _ | e
    · rw [lookupGroup, hf]
      by_cases hkj : (k == j) = true
      · simp [List.find?, hkj]
      · have hkj' : (k == j) = false := by simpa using hkj
        simp [List.find?, hkj']
    · have hej : e.1 = j := by simpa using List.find?_some hf
      rw [lookupGroup, hf]
      by_cases hkj : (k == j) = true
      · exfalso
        have hkj' : k = j := by simpa using hkj
        subst hkj'
        have : acc.any (fun p => p.1 == k) = true :=
          List.any_eq_true.mpr ⟨e, List.mem_of_find?_eq_some hf, by rw [hej]; simp⟩
        exact hany this
      · have hkj' : (k == j) = false := by simpa using hkj
        simp [hkj']

theorem lookupGroup_groupByKeyVal_aux {β γ : Type} (keyOf : β → String) (valOf : β → γ)
    (l : List β) (j : String) (acc : List (String × List γ)) :
    lookupGroup (l.foldl (fun acc x => pushGroup acc (keyOf x) (valOf x)) acc) j =
      lookupGroup acc j ++ (l.filter fun x => keyOf x == j).map valOf := by
  induction l generalizing acc with
  | nil => simp
  | cons x xs ih =>
    rw [List.foldl_cons, ih, lookupGroup_pushGroup, List.filter_cons]
    by_cases h : (keyOf x == j) = true
    · rw [if_pos h, if_pos h]
      simp
    · have h' : (keyOf x == j) = false := by simpa using h
      rw [if_neg (by simp [h']), h']
      simp

/-- The reduce/push grouping looked up at a key yields exactly the
filtered values in order. -/
theorem lookupGroup_groupByKeyVal {β γ : Type} (keyOf : β → String) (valOf : β → γ)
    (l : List β) (j : String) :
    lookupGroup (groupByKeyVal keyOf valOf l) j =
      (l.filter fun x => keyOf x == j).map valOf := by
  have := lookupGroup_groupByKeyVal_aux keyOf valOf l j []
  simpa [groupByKeyVal, lookupGroup] using this

theorem perm_insertCmp {β : Type} (cmp : β → β → Option Int) (x : β) (l : List β) :
    (insertCmp cmp x l).Perm (x :: l) := by
  induction l with
  | nil => exact List.Perm.refl _
  | cons y ys ih =>
    by_cases h : jsLtCmp (cmp x y)
    · rw [insertCmp, if_pos h]
    · rw [insertCmp, if_neg h]
      exact (ih.cons y).trans (List.Perm.swap x y ys)

theorem perm_jsSortWith_aux {β : Type} (cmp : β → β → Option Int) (l acc : List β) :
    (l.foldl (fun acc x => insertCmp cmp x acc) acc).Perm (acc ++ l) := by
  induction l generalizing acc with
  | nil => simp
  | cons x xs ih =>
    rw [List.foldl_cons]
    have h1 := ih (insertCmp cmp x acc)
    have h2 : (insertCmp cmp x acc ++ xs).Perm ((x :: acc) ++ xs) :=
      (perm_insertCmp cmp x acc).append_right xs
    have h3 : ((x :: acc) ++ xs).Perm (acc ++ x :: xs) := by
      simpa using (@List.perm_middle _ x acc xs).symm
    exact (h1.trans h2).trans h3

/-- The modeled sort is a permutation of its input. -/
theorem perm_jsSortWith {β : Type} (cmp : β → β → Option Int) (l : List β) :
    (jsSortWith cmp l).Perm l := by
  simpa using perm_jsSortWith_aux cmp l []

theorem perm_insertStrAsc (x : String) (l : List String) :
    (insertStrAsc x l).Perm (x :: l) := by
  induction l with
  | nil => exact List.Perm.refl _
  | cons y ys ih =>
    by_cases h : x < y
    · rw [insertStrAsc, if_pos h]
    · rw [insertStrAsc, if_neg h]
      exact (ih.cons y).trans (List.Perm.swap x y ys)

theorem perm_sortStrAsc_aux (l acc : List String) :
    (l.foldl (fun acc x => insertStrAsc x acc) acc).Perm (acc ++ l) := by
  induction l generalizing acc with
  | nil => simp
  | cons x xs ih =>
    rw [List.foldl_cons]
    have h1 := ih (insertStrAsc x acc)
    have h2 : (insertStrAsc x acc ++ xs).Perm ((x :: acc) ++ xs) :=
      (perm_insertStrAsc x acc).append_right xs
    have h3 : ((x :: acc) ++ xs).Perm (acc ++ x :: xs) := by
      simpa using (@List.perm_middle _ x acc xs).symm
    exact (h1.trans h2).trans h3

theorem perm_sortStrAsc (l : List String) : (sortStrAsc l).Perm l := by
  simpa using perm_sortStrAsc_aux l []

theorem foldl_max_le_iff (l : List Nat) (a m : Nat) :
    l.foldl max a ≤ m ↔ a ≤ m ∧ ∀ v ∈ l, v ≤ m := by
  induction l generalizing a with
  | nil => simp
  | cons x xs ih =>
    rw [List.foldl_cons, ih]
    constructor
    · rintro ⟨hax, hall⟩
      rw [max_le_iff] at hax
      refine ⟨hax.1, ?_⟩
      intro v hv
      rcases List.mem_cons.mp hv with hv | hv
      · rw [hv]
        exact hax.2
      · exact hall v hv
    · rintro ⟨ha, hall⟩
      exact ⟨max_le ha (hall x (by simp)), fun v hv => hall v (by simp [hv])⟩

theorem maxNat_le_iff (l : List Nat) (m : Nat) :
    maxNat l ≤ m ↔ ∀ v ∈ l, v ≤ m := by
  rw [maxNat, foldl_max_le_iff]
  simp

theorem le_maxNat_of_mem {v : Nat} {l : List Nat} (h : v ∈ l) : v ≤ maxNat l :=
  ((maxNat_le_iff l (maxNat l)).mp le_rfl) v h

theorem jsMathMax_eq {l : List Nat} (h : l ≠ []) : jsMathMax l = some (maxNat l) := by
  rcases l with _ | ⟨x, xs⟩
  · exact absurd rfl h
  · rw [jsMathMax, maxNat, List.foldl_cons, Nat.zero_max]

theorem foldl_add_map_sum {β : Type} (f : β → Nat) (l : List β) (n : Nat) :
    l.foldl (fun acc x => acc + f x) n = n + (l.map f).sum := by
  induction l generalizing n with
  | nil => simp
  | cons x xs ih =>
    rw [List.foldl_cons, ih, List.map_cons, List.sum_cons]
    omega

/-- Claim C8: the statistics query reports, per type, the number of
active rows and the greatest creation instant (the update time of an
active record in this append-only design) among them, with every active
type present; the dashboard's lastUpdated is the greatest such instant
over all active rows; featuredSkills counts active skill rows with
truthy is_featured; publishedProjects counts active published project
rows; totalAchievements sums the attached achievements over all active
experiences. -/
theorem claim_C8 (s : Store Doc) (h : ∃ r ∈ s.rows, r.is_active = true) :
    (∀ st ∈ getPortfolioStatsByType s,
      st.count = (s.rows.filter (fun r => r.type == st.type && r.is_active)).length ∧
      st.last_updated = maxNat ((s.rows.filter
        (fun r => r.type == st.type && r.is_active)).map (fun r => r.created_at))) ∧
    (∀ r ∈ s.rows, r.is_active = true →
      ∃ st ∈ getPortfolioStatsByType s, st.type = r.type) ∧
    (getDashboardStats s).lastUpdated =
      some (maxNat ((s.rows.filter (fun r => r.is_active)).map (fun r => r.created_at))) ∧
    (getDashboardStats s).featuredSkills =
      (s.rows.filter (fun r => jsTruthyBool r.value.is_featured &&
        (r.type == "skill" && r.is_active))).length ∧
    (getDashboardStats s).publishedProjects =
      (s.rows.filter (fun r => r.value.status == some "published" &&
        (r.type == "project" && r.is_active))).length ∧
    (getDashboardStats s).totalAchievements =
      ((getPortfolioItemsByType "experience" s).map (fun e =>
        ((getPortfolioItemsByType "achievement" s).filter (fun a =>
          jsPropKey a.experience_id == jsPropKey e.id)).length)).sum := by
  have hstats : getPortfolioStatsByType s =
      (sortStrAsc (((s.rows.filter (fun r => r.is_active)).map (fun r => r.type)).dedup)).map
        (fun t => TypeStat.mk t
          ((s.rows.filter (fun r => r.is_active)).filter (fun r => r.type == t)).length
          (maxNat (((s.rows.filter (fun r => r.is_active)).filter
            (fun r => r.type == t)).map (fun r => r.created_at)))) := rfl
  have hmemtypes : ∀ r ∈ s.rows, r.is_active = true →
      r.type ∈ sortStrAsc (((s.rows.filter (fun r => r.is_active)).map
        (fun r => r.type)).dedup) := by
    intro r hr hra
    refine (perm_sortStrAsc _).mem_iff.mpr ?_
    refine List.mem_dedup.mpr ?_
    exact List.mem_map.mpr ⟨r, List.mem_filter.mpr ⟨hr, by rw [hra]⟩, rfl⟩
  refine ⟨?_, ?_, ?_, ?_, ?_, ?_⟩
  · intro st hst
    rw [hstats] at hst
    rcases List.mem_map.mp hst with ⟨t, _, hmk⟩
    subst hmk
    rw [List.filter_filter]
    exact ⟨rfl, rfl⟩
  · intro r hr hra
    rw [hstats]
    exact ⟨_, List.mem_map.mpr ⟨r.type, hmemtypes r hr hra, rfl⟩, rfl⟩
  · rcases h with ⟨r0, hr0, hra0⟩
    have htne : sortStrAsc (((s.rows.filter (fun r => r.is_active)).map
        (fun r => r.type)).dedup) ≠ [] :=
      List.ne_nil_of_mem (hmemtypes r0 hr0 hra0)
    show jsMathMax ((getPortfolioStatsByType s).map (fun row => row.last_updated)) = _
    rw [hstats, List.map_map]
    have hmapne : (sortStrAsc (((s.rows.filter (fun r => r.is_active)).map
        (fun r => r.type)).dedup)).map (fun t =>
          maxNat (((s.rows.filter (fun r => r.is_active)).filter
            (fun r => r.type == t)).map (fun r => r.created_at))) ≠ [] := by
      intro hc
      rw [List.map_eq_nil_iff] at hc
      exact htne hc
    rw [show ((fun row : TypeStat => row.last_updated) ∘ fun t => TypeStat.mk t
        ((s.rows.filter (fun r => r.is_active)).filter (fun r => r.type == t)).length
        (maxNat (((s.rows.filter (fun r => r.is_active)).filter
          (fun r => r.type == t)).map (fun r => r.created_at)))) = fun t =>
        maxNat (((s.rows.filter (fun r => r.is_active)).filter
          (fun r => r.type == t)).map (fun r => r.created_at)) from rfl]
    rw [jsMathMax_eq hmapne]
    congr 1
    apply Nat.le_antisymm
    · rw [maxNat_le_iff]
      intro v hv
      rcases List.mem_map.mp hv with ⟨t, _, hvt⟩
      rw [← hvt, maxNat_le_iff]
      intro c hc
      rcases List.mem_map.mp hc with ⟨r, hrf, hrc⟩
      rw [← hrc]
      exact le_maxNat_of_mem (List.mem_map.mpr ⟨r, List.mem_of_mem_filter hrf, rfl⟩)
    · rw [maxNat_le_iff]
      intro c hc
      rcases List.mem_map.mp hc with ⟨r, hrf, hrc⟩
      have hr : r ∈ s.rows := List.mem_of_mem_filter hrf
      have hra : r.is_active = true := by
        have := List.of_mem_filter hrf
        simpa using this
      have h1 : c ≤ maxNat (((s.rows.filter (fun r => r.is_active)).filter
          (fun x => x.type == r.type)).map (fun r => r.created_at)) := by
        refine le_maxNat_of_mem ?_
        rw [← hrc]
        exact List.mem_map.mpr ⟨r, List.mem_filter.mpr ⟨hrf, by simp⟩, rfl⟩
      refine h1.trans (le_maxNat_of_mem ?_)
      exact List.mem_map.mpr ⟨r.type, hmemtypes r hr hra, rfl⟩
  · show ((getAllSkills s).filter (fun skill => jsTruthyBool skill.is_featured)).length = _
    rw [getAllSkills, getPortfolioItemsByType, List.filter_map, List.length_map,
      List.filter_filter]
    rfl
  · show ((getAllProjects s).filter
      (fun project => project.project.status == some "published")).length = _
    rw [getAllProjects]
    rw [((perm_jsSortWith _ _).filter _).length_eq]
    rw [List.filter_map, List.length_map]
    show (((s.rows.filter (fun r => r.type == "project" && r.is_active)).map
      (fun r => r.value)).filter (fun v => v.status == some "published")).length = _
    rw [List.filter_map, List.length_map, List.filter_filter]
    rfl
  · show (getAllExperiences s).foldl (fun sum exp => sum + exp.achievements.length) 0 = _
    rw [foldl_add_map_sum, Nat.zero_add]
    rw [getAllExperiences]
    rw [((perm_jsSortWith _ _).map _).sum_eq]
    rw [List.map_map]
    congr 1
    refine List.map_congr_left ?_
    intro e _
    show (jsSortWith cmpDocSortOrder (lookupGroup (groupByKeyVal
      (fun a => jsPropKey a.experience_id) (fun a => a)
      (getPortfolioItemsByType "achievement" s)) (jsPropKey e.id))).length = _
    rw [(perm_jsSortWith _ _).length_eq, lookupGroup_groupByKeyVal, List.length_map]

/-- Witness for C8 at a concrete input: a store with one active
profile row. -/
theorem claim_C8_witness :
    (∃ r ∈ (Store.mk [Row.mk "profile" "profile" ({ } : Doc) 1 true 0] 1).rows,
      r.is_active = true) ∧
    (getDashboardStats (Store.mk [Row.mk "profile" "profile" ({ } : Doc) 1 true 0] 1)).lastUpdated =
      some (maxNat (((Store.mk [Row.mk "profile" "profile" ({ } : Doc) 1 true 0] 1).rows.filter
        (fun r => r.is_active)).map (fun r => r.created_at))) :=
  ⟨⟨Row.mk "profile" "profile" ({ } : Doc) 1 true 0, by simp, rfl⟩,
   (claim_C8 (Store.mk [Row.mk "profile" "profile" ({ } : Doc) 1 true 0] 1)
     ⟨Row.mk "profile" "profile" ({ } : Doc) 1 true 0, by simp, rfl⟩).2.2.1⟩

end PortfolioBE
